import Mathlib

/-!
Verification development for the ccnd forwarding daemon (src/ccnd/agent/ccnd.c).

The daemon's data structures and operations are shallowly embedded as Lean
definitions below.  Machine unsigned arithmetic is modelled over Nat with an
explicit modulus 2^32 at the points where C unsigned overflow matters.
External collaborators (the wire-format codec, the socket layer, the
scheduler) are abstracted as parameters, following the specification's
component boundary.  Pointer identity of faces and content entries is
modelled by their stable identifiers (face id, accession, key bytes).
-/

set_option maxRecDepth 10000

/-- Modelled from the spec: `MAXFACES` lives in the header `ccnd_private.h`,
which is not among the sources; the spec says only that it is a power-of-two
mask bounding the dense face array.  We fix the mask at 2^30 - 1; nothing
below depends on the particular power. -/
def MAXFACES : Nat := 2 ^ 30 - 1

/-- Modulus of the C `unsigned` type used for face ids and `face_gen`. -/
def U32 : Nat := 2 ^ 32

/-- Connection endpoint (struct face).  Only the fields the claims touch are
kept: the stable id, the `CCN_FACE_LINK` and `CCN_FACE_DGRAM` flag bits
(modelled as booleans), and the enumeration-resume hint. -/
structure Face where
  faceid : Nat
  link : Bool
  dgram : Bool
  cached_accession : Nat
deriving DecidableEq

/-- Face-table slice of the daemon state: the dense array `faces_by_faceid`
(whose length is `face_limit`), the rover and the generation counter.
`face_gen_true` is a ghost copy of `face_gen` without the 2^32 wraparound and
`minted` is a ghost log of `(faceid, face_gen_true at minting)` pairs for the
ids handed out by `enroll_face`; neither influences any computed result. -/
structure FaceTab where
  faces_by_faceid : List (Option Face)
  face_rover : Nat
  face_gen : Nat
  face_gen_true : Nat
  minted : List (Nat × Nat)
deriving DecidableEq

/-- Translation of `face_from_faceid` (ccnd.c:146): mask out the slot, check
the bound against `face_limit`, and return the stored face only when its
stored id equals the requested id. -/
def face_from_faceid (t : FaceTab) (faceid : Nat) : Option Face :=
  match t.faces_by_faceid[faceid &&& MAXFACES]? with
  | some (some face) => if face.faceid = faceid then some face else none
  | _ => none

/-- Scan `a[lo..]` for the first empty slot, as the for-loops of
`enroll_face` do. -/
def findFreeSlot (a : List (Option Face)) (lo : Nat) : Option Nat :=
  (List.range' lo (a.length - lo)).find? (fun i => decide (a[i]? = some none))

/-- Store the face at the slot, advance the rover past it, and mint the id
`slot | gen`; shared tail of the three paths of `enroll_face` (label
`use_i`). -/
def enrollAt (t : FaceTab) (f : Face) (slot gen genTrue : Nat) :
    FaceTab × Nat :=
  ({ t with
      faces_by_faceid :=
        t.faces_by_faceid.set slot (some { f with faceid := slot ||| gen })
      face_rover := slot + 1
      face_gen := gen
      face_gen_true := genTrue
      minted := t.minted ++ [(slot ||| gen, genTrue)] }, slot ||| gen)

/-- Target size `(n+1)*3/2` capped at `MAXFACES` used when `enroll_face`
grows the dense array. -/
def growTarget (t : FaceTab) : Nat :=
  if (t.faces_by_faceid.length + 1) * 3 / 2 > MAXFACES then MAXFACES
  else (t.faces_by_faceid.length + 1) * 3 / 2

/-- Growth path of `enroll_face`: refuse (`-1`, here `none`) when the capped
target does not exceed the current limit, otherwise extend the array with
empty slots (slot `n` itself is immediately used) and enroll at slot `n`. -/
def enrollGrow (t : FaceTab) (f : Face) : Option (FaceTab × Nat) :=
  if growTarget t ≤ t.faces_by_faceid.length then none
  else
    some (enrollAt
      { t with faces_by_faceid := t.faces_by_faceid ++
          List.replicate (growTarget t - t.faces_by_faceid.length) none }
      f t.faces_by_faceid.length t.face_gen t.face_gen_true)

/-- Translation of `enroll_face` (ccnd.c:159): first pass from the rover,
second pass from 0 bumping the generation by `MAXFACES + 1` (unsigned,
hence mod 2^32), else grow the array.  Returns `none` for the `-1`
overflow/ENOMEM result. -/
def enroll_face (t : FaceTab) (f : Face) : Option (FaceTab × Nat) :=
  match findFreeSlot t.faces_by_faceid t.face_rover with
  | some i => some (enrollAt t f i t.face_gen t.face_gen_true)
  | none =>
    match findFreeSlot t.faces_by_faceid 0 with
    | some i =>
        some (enrollAt t f i ((t.face_gen + (MAXFACES + 1)) % U32)
          (t.face_gen_true + (MAXFACES + 1)))
    | none => enrollGrow t f

/-- Slot-clearing part of `finalize_face` (ccnd.c:191): release the slot
when it still holds the face being finalized (pointer identity is modelled
by the stored id). -/
def release_face (t : FaceTab) (fid : Nat) : FaceTab :=
  match t.faces_by_faceid[fid &&& MAXFACES]? with
  | some (some face) =>
      if face.faceid = fid then
        { t with faces_by_faceid :=
            t.faces_by_faceid.set (fid &&& MAXFACES) none }
      else t
  | _ => t

/-- Face table as `ccnd_create` initializes it: `face_limit = 10`, all slots
empty, rover and generation zero. -/
def initFaceTab : FaceTab := ⟨List.replicate 10 none, 0, 0, 0, []⟩

/-- Daemon face-table states reachable by any sequence of `enroll_face`
calls and face releases, starting from the state `ccnd_create` builds. -/
inductive ReachableF : FaceTab → Prop where
  | init : ReachableF initFaceTab
  | enroll (t t' : FaceTab) (f : Face) (fid : Nat) :
      ReachableF t → enroll_face t f = some (t', fid) → ReachableF t'
  | release (t : FaceTab) (fid : Nat) :
      ReachableF t → ReachableF (release_face t fid)

/-- Invariant of reachable face tables: array bound, generation-counter
shape, slot/id consistency of stored faces, and the ghost minted log. -/
structure FInv (t : FaceTab) : Prop where
  len_le : t.faces_by_faceid.length ≤ MAXFACES
  gen_mod : t.face_gen % (MAXFACES + 1) = 0
  gen_eq : t.face_gen = t.face_gen_true % U32
  slots : ∀ i face, t.faces_by_faceid[i]? = some (some face) →
            face.faceid &&& MAXFACES = i
  minted_inv : ∀ p ∈ t.minted, p.2 ≤ t.face_gen_true ∧
            p.2 % (MAXFACES + 1) = 0 ∧
            p.1 = (p.1 &&& MAXFACES) ||| (p.2 % U32)

theorem maxfaces_succ : MAXFACES + 1 = 2 ^ 30 := by norm_num [MAXFACES]

theorem maxfaces_val : MAXFACES = 1073741823 := by norm_num [MAXFACES]

theorem pow30_val : (2 : Nat) ^ 30 = 1073741824 := by norm_num

theorem u32_val : U32 = 4294967296 := by norm_num [U32]

theorem pow30_dvd_u32 : (2 : Nat) ^ 30 ∣ U32 := by
  rw [u32_val, pow30_val]
  norm_num

theorem or_and_maxfaces (slot gen : Nat) (h1 : slot < 2 ^ 30)
    (h2 : gen % 2 ^ 30 = 0) : (slot ||| gen) &&& MAXFACES = slot := by
  apply Nat.eq_of_testBit_eq
  intro i
  rw [Nat.testBit_land, Nat.testBit_lor, show MAXFACES = 2 ^ 30 - 1 from rfl,
    Nat.testBit_two_pow_sub_one]
  by_cases hi : i < 30
  · have h3 := Nat.testBit_mod_two_pow gen 30 i
    rw [h2, Nat.zero_testBit] at h3
    have hg : gen.testBit i = false := by
      cases h4 : gen.testBit i
      · rfl
      · rw [h4] at h3
        simp [hi] at h3
    simp [hg, hi]
  · have hs : slot.testBit i = false :=
      Nat.testBit_eq_false_of_lt
        (lt_of_lt_of_le h1 (Nat.pow_le_pow_right (by omega) (by omega)))
    simp [hs, hi]

theorem or_shift30 (slot gen : Nat) (h1 : slot < 2 ^ 30) :
    (slot ||| gen) >>> 30 = gen >>> 30 := by
  apply Nat.eq_of_testBit_eq
  intro i
  rw [Nat.testBit_shiftRight, Nat.testBit_shiftRight, Nat.testBit_lor]
  have hs : slot.testBit (30 + i) = false :=
    Nat.testBit_eq_false_of_lt
      (lt_of_lt_of_le h1 (Nat.pow_le_pow_right (by omega) (by omega)))
  simp [hs]

theorem or_slot_inj (slot g1 g2 : Nat) (h1 : slot < 2 ^ 30)
    (hg1 : g1 % 2 ^ 30 = 0) (hg2 : g2 % 2 ^ 30 = 0)
    (h : slot ||| g1 = slot ||| g2) : g1 = g2 := by
  have e1 : (slot ||| g1) >>> 30 = g1 >>> 30 := or_shift30 _ _ h1
  have e2 : (slot ||| g2) >>> 30 = g2 >>> 30 := or_shift30 _ _ h1
  have hdiv : g1 / 2 ^ 30 = g2 / 2 ^ 30 := by
    rw [← Nat.shiftRight_eq_div_pow, ← Nat.shiftRight_eq_div_pow, ← e1, ← e2, h]
  have d1 := Nat.div_add_mod g1 (2 ^ 30)
  have d2 := Nat.div_add_mod g2 (2 ^ 30)
  omega

theorem findFreeSlot_lt {a : List (Option Face)} {lo i : Nat}
    (h : findFreeSlot a lo = some i) :
    i < a.length ∧ a[i]? = some none := by
  unfold findFreeSlot at h
  have hmem := List.mem_of_find?_eq_some h
  have hpred := List.find?_some h
  have hi := List.mem_range'_1.mp hmem
  refine ⟨by omega, by simpa using hpred⟩

theorem finv_enrollAt {t : FaceTab} (inv : FInv t) (f : Face)
    {slot gen genTrue : Nat} (hslot : slot < t.faces_by_faceid.length)
    (hgen : gen % (MAXFACES + 1) = 0) (hgeq : gen = genTrue % U32)
    (hgt : t.face_gen_true ≤ genTrue) :
    FInv (enrollAt t f slot gen genTrue).1 := by
  have hmv := maxfaces_val
  have hp24 := pow30_val
  have hlt24 : slot < 2 ^ 30 := by have := inv.len_le; omega
  have hgen24 : gen % 2 ^ 30 = 0 := by rw [← maxfaces_succ]; exact hgen
  have hgt24 : genTrue % (MAXFACES + 1) = 0 := by
    have h1 : genTrue % U32 % (MAXFACES + 1) = genTrue % (MAXFACES + 1) :=
      Nat.mod_mod_of_dvd _ (by rw [maxfaces_succ]; exact pow30_dvd_u32)
    rw [← h1, ← hgeq]
    exact hgen
  constructor
  · simp only [enrollAt, List.length_set]
    exact inv.len_le
  · exact hgen
  · exact hgeq
  · intro i face hi
    simp only [enrollAt] at hi
    rcases eq_or_ne slot i with he | hne
    · subst he
      rw [List.getElem?_set_self hslot] at hi
      have hface : face = { f with faceid := slot ||| gen } := by
        injection hi with h5
        injection h5 with h6
        exact h6.symm
      rw [hface]
      exact or_and_maxfaces slot gen hlt24 hgen24
    · rw [List.getElem?_set_ne hne] at hi
      exact inv.slots i face hi
  · intro p hp
    simp only [enrollAt, List.mem_append, List.mem_singleton] at hp
    rcases hp with hp | hp
    · obtain ⟨h1, h2, h3⟩ := inv.minted_inv p hp
      exact ⟨le_trans h1 hgt, h2, h3⟩
    · subst hp
      refine ⟨le_refl _, hgt24, ?_⟩
      rw [or_and_maxfaces slot gen hlt24 hgen24, ← hgeq]

theorem finv_grow {t : FaceTab} (inv : FInv t) {k : Nat}
    (hlen : t.faces_by_faceid.length + k ≤ MAXFACES) :
    FInv { t with faces_by_faceid :=
        t.faces_by_faceid ++ List.replicate k none } := by
  constructor
  · simpa using hlen
  · exact inv.gen_mod
  · exact inv.gen_eq
  · intro i face hi
    simp only [List.getElem?_append] at hi
    split at hi
    · exact inv.slots i face hi
    · rw [List.getElem?_replicate] at hi
      split at hi <;> simp_all
  · exact fun p hp => inv.minted_inv p hp

theorem growTarget_le {t : FaceTab} : growTarget t ≤ MAXFACES := by
  unfold growTarget
  split
  · exact le_refl _
  · omega

theorem enroll_face_cases {t t' : FaceTab} {f : Face} {fid : Nat}
    (h : enroll_face t f = some (t', fid)) :
    (∃ i, findFreeSlot t.faces_by_faceid t.face_rover = some i ∧
        enrollAt t f i t.face_gen t.face_gen_true = (t', fid)) ∨
    (∃ i, findFreeSlot t.faces_by_faceid t.face_rover = none ∧
        findFreeSlot t.faces_by_faceid 0 = some i ∧
        enrollAt t f i ((t.face_gen + (MAXFACES + 1)) % U32)
          (t.face_gen_true + (MAXFACES + 1)) = (t', fid)) ∨
    (findFreeSlot t.faces_by_faceid t.face_rover = none ∧
        findFreeSlot t.faces_by_faceid 0 = none ∧
        t.faces_by_faceid.length < growTarget t ∧
        enrollAt { t with faces_by_faceid := t.faces_by_faceid ++
            List.replicate (growTarget t - t.faces_by_faceid.length) none }
          f t.faces_by_faceid.length t.face_gen t.face_gen_true = (t', fid)) := by
  unfold enroll_face at h
  split at h
  · rename_i i heq
    injection h with h2
    exact Or.inl ⟨i, heq, h2⟩
  · rename_i heq1
    split at h
    · rename_i i heq2
      injection h with h2
      exact Or.inr (Or.inl ⟨i, heq1, heq2, h2⟩)
    · rename_i heq2
      unfold enrollGrow at h
      split at h
      · exact Option.noConfusion h
      · rename_i hgt
        injection h with h2
        exact Or.inr (Or.inr ⟨heq1, heq2, by omega, h2⟩)

theorem finv_enroll {t t' : FaceTab} {f : Face} {fid : Nat} (inv : FInv t)
    (h : enroll_face t f = some (t', fid)) : FInv t' := by
  rcases enroll_face_cases h with ⟨i, h1, h2⟩ | ⟨i, h1, h2, h3⟩ |
      ⟨h1, h2, h3, h4⟩
  · have ht' : (enrollAt t f i t.face_gen t.face_gen_true).1 = t' :=
      congrArg Prod.fst h2
    rw [← ht']
    exact finv_enrollAt inv f (findFreeSlot_lt h1).1 inv.gen_mod inv.gen_eq
      (le_refl _)
  · have ht' : (enrollAt t f i ((t.face_gen + (MAXFACES + 1)) % U32)
        (t.face_gen_true + (MAXFACES + 1))).1 = t' := congrArg Prod.fst h3
    rw [← ht']
    refine finv_enrollAt inv f (findFreeSlot_lt h2).1 ?_ ?_ (by omega)
    · rw [Nat.mod_mod_of_dvd _ (by rw [maxfaces_succ]; exact pow30_dvd_u32),
        Nat.add_mod, inv.gen_mod, maxfaces_succ]
      simp
    · rw [inv.gen_eq, Nat.mod_add_mod]
  · have ht' : (enrollAt
        { t with faces_by_faceid := t.faces_by_faceid ++
            List.replicate (growTarget t - t.faces_by_faceid.length) none }
        f t.faces_by_faceid.length t.face_gen t.face_gen_true).1 = t' :=
      congrArg Prod.fst h4
    rw [← ht']
    have hlim : growTarget t ≤ MAXFACES := growTarget_le
    refine finv_enrollAt (finv_grow inv ?_) f ?_ inv.gen_mod inv.gen_eq
      (le_refl _)
    · omega
    · simp only [List.length_append, List.length_replicate]
      omega

theorem finv_release {t : FaceTab} (inv : FInv t) (fid : Nat) :
    FInv (release_face t fid) := by
  unfold release_face
  split
  · rename_i face heq
    split
    · constructor
      · simpa using inv.len_le
      · exact inv.gen_mod
      · exact inv.gen_eq
      · intro i fc hi
        simp only at hi
        rcases eq_or_ne (fid &&& MAXFACES) i with he | hne
        · subst he
          have hb : fid &&& MAXFACES < t.faces_by_faceid.length := by
            by_contra hc
            rw [List.getElem?_eq_none (by omega)] at heq
            exact Option.noConfusion heq
          rw [List.getElem?_set_self hb] at hi
          injection hi with h5
          exact Option.noConfusion h5
        · rw [List.getElem?_set_ne hne] at hi
          exact inv.slots i fc hi
      · exact inv.minted_inv
    · exact inv
  · exact inv

theorem finv_reachable {t : FaceTab} (h : ReachableF t) : FInv t := by
  induction h with
  | init =>
    constructor
    · norm_num [initFaceTab, maxfaces_val]
    · exact Nat.zero_mod _
    · exact (Nat.zero_mod _).symm
    · intro i face hi
      simp only [initFaceTab, List.getElem?_replicate] at hi
      split at hi
      · injection hi with h5
        exact Option.noConfusion h5
      · exact Option.noConfusion hi
    · intro p hp
      simp [initFaceTab] at hp
  | enroll t t' f fid ht he ih => exact finv_enroll ih he
  | release t fid ht ih => exact finv_release ih fid

/-- C1 (amended): in every reachable face-table state, `face_from_faceid`
returns a face only when that face is stored at slot `f & MAXFACES` and its
stored id equals `f`; every stored face resolves to itself; a requested id
differing from the slot's stored id resolves to nothing; and an id minted
before a free-list wrap no longer resolves after the wrap reuses its slot,
provided the 32-bit generation counter has not wrapped around 2^32.  (The
claim as frozen omits the last proviso; `c1_counterexample` shows it is
needed.) -/
theorem c1_face_table_lookup (t t' : FaceTab) (f g fid i : Nat)
    (face fc : Face) (ht : ReachableF t) :
    (face_from_faceid t f = some face →
       t.faces_by_faceid[f &&& MAXFACES]? = some (some face) ∧
       face.faceid = f)
  ∧ (t.faces_by_faceid[i]? = some (some face) →
       face_from_faceid t face.faceid = some face)
  ∧ (t.faces_by_faceid[f &&& MAXFACES]? = some (some face) →
       face.faceid ≠ f → face_from_faceid t f = none)
  ∧ (enroll_face t fc = some (t', fid) →
     t'.face_gen_true = t.face_gen_true + (MAXFACES + 1) →
     t'.face_gen_true < U32 →
     (f, g) ∈ t.minted →
     f &&& MAXFACES = fid &&& MAXFACES →
     face_from_faceid t' f = none) := by
  have inv := finv_reachable ht
  refine ⟨?_, ?_, ?_, ?_⟩
  · intro h
    unfold face_from_faceid at h
    split at h
    · rename_i fc2 heq
      split at h
      · rename_i hfid
        injection h with h5
        subst h5
        exact ⟨heq, hfid⟩
      · exact Option.noConfusion h
    · exact Option.noConfusion h
  · intro h
    have hslot := inv.slots i face h
    unfold face_from_faceid
    rw [hslot, h]
    simp
  · intro h hne
    unfold face_from_faceid
    rw [h]
    simp [hne]
  · intro he hbump hnw hmem hslots
    have hB := maxfaces_succ
    have hmv := maxfaces_val
    have hp24 := pow30_val
    rcases enroll_face_cases he with ⟨j, h1, h2⟩ | ⟨j, h1, h2, h3⟩ |
        ⟨h1, h2, h3, h4⟩
    · have hgt : t'.face_gen_true = t.face_gen_true := by
        have h5 : (enrollAt t fc j t.face_gen t.face_gen_true).1 = t' :=
          congrArg Prod.fst h2
        rw [← h5]
        rfl
      rw [hgt] at hbump
      omega
    · obtain ⟨hjlt, _⟩ := findFreeSlot_lt h2
      have ht'1 : (enrollAt t fc j ((t.face_gen + (MAXFACES + 1)) % U32)
          (t.face_gen_true + (MAXFACES + 1))).1 = t' := congrArg Prod.fst h3
      have hfid : (j ||| (t.face_gen + (MAXFACES + 1)) % U32) = fid :=
        congrArg Prod.snd h3
      have hj24 : j < 2 ^ 30 := by have := inv.len_le; omega
      have hgm : t.face_gen % 1073741824 = 0 := by
        have h6 := inv.gen_mod
        rwa [hB, hp24] at h6
      have hnw' : t.face_gen_true + 1073741824 < 4294967296 := by
        have h6 : t'.face_gen_true = t.face_gen_true + 1073741824 := by
          rw [hbump, hB, hp24]
        have h7 := hnw
        rw [h6, u32_val] at h7
        exact h7
      have hfg : t.face_gen = t.face_gen_true := by
        rw [inv.gen_eq, u32_val, Nat.mod_eq_of_lt (by omega)]
      have hg2 : (t.face_gen + (MAXFACES + 1)) % U32 =
          t.face_gen_true + 1073741824 := by
        rw [hfg, hB, hp24, u32_val, Nat.mod_eq_of_lt (by omega)]
      have hgt_mod : t.face_gen_true % 1073741824 = 0 := by
        have h6 : t.face_gen_true % U32 % 1073741824 =
            t.face_gen_true % 1073741824 :=
          Nat.mod_mod_of_dvd _ (by rw [u32_val]; norm_num)
        rw [← h6, ← inv.gen_eq]
        exact hgm
      obtain ⟨hg_le, hg_mod, hf_eq⟩ := inv.minted_inv (f, g) hmem
      simp only at hg_le hg_mod hf_eq
      have hg_lt : g < 4294967296 := by omega
      have hgU : g % U32 = g := by rw [u32_val]; exact Nat.mod_eq_of_lt hg_lt
      rw [hgU] at hf_eq
      have hg2mod24 : ((t.face_gen + (MAXFACES + 1)) % U32) % 2 ^ 30 = 0 := by
        rw [hg2, hp24]
        omega
      have hgmod24 : g % 2 ^ 30 = 0 := by
        have h6 := hg_mod
        rwa [hB] at h6
      have hfand : fid &&& MAXFACES = j := by
        rw [← hfid]
        exact or_and_maxfaces j _ hj24 hg2mod24
      have hjf : f &&& MAXFACES = j := hslots.trans hfand
      have hfj : f = j ||| g := by rw [hf_eq, hjf]
      have hne : f ≠ fid := by
        intro hcontra
        have hor : j ||| g = j ||| ((t.face_gen + (MAXFACES + 1)) % U32) := by
          rw [← hfj, hcontra, ← hfid]
        have hgg : g = (t.face_gen + (MAXFACES + 1)) % U32 :=
          or_slot_inj j _ _ hj24 hgmod24 hg2mod24 hor
        rw [hg2] at hgg
        omega
      rw [← ht'1]
      unfold face_from_faceid
      simp only [enrollAt]
      rw [hjf, List.getElem?_set_self hjlt]
      have hne2 : (j ||| (t.face_gen + (MAXFACES + 1)) % U32) ≠ f := by
        rw [hfid]
        exact fun hc => hne hc.symm
      simp [hne2]
    · have hgt : t'.face_gen_true = t.face_gen_true := by
        have h5 : (enrollAt
            { t with faces_by_faceid := t.faces_by_faceid ++
                List.replicate (growTarget t - t.faces_by_faceid.length) none }
            fc t.faces_by_faceid.length t.face_gen t.face_gen_true).1 = t' :=
          congrArg Prod.fst h4
        rw [← h5]
        rfl
      rw [hgt] at hbump
      omega

/-- Operations on the face table, for exhibiting concrete reachable states. -/
inductive FOp where
  | enr : FOp
  | rel : Nat → FOp
deriving DecidableEq

/-- Concrete face used by the enroll operations below. -/
def c1Face : Face := ⟨0, false, false, 0⟩

/-- Apply one face-table operation (a failed enroll leaves the state). -/
def applyFOp (t : FaceTab) : FOp → FaceTab
  | FOp.enr =>
    match enroll_face t c1Face with
    | some (t', _) => t'
    | none => t
  | FOp.rel fid => release_face t fid

/-- Apply a list of face-table operations in order. -/
def applyFOps (t : FaceTab) (ops : List FOp) : FaceTab :=
  ops.foldl applyFOp t

theorem reachable_applyFOp (t : FaceTab) (ht : ReachableF t) (op : FOp) :
    ReachableF (applyFOp t op) := by
  cases op with
  | enr =>
    unfold applyFOp
    cases h : enroll_face t c1Face with
    | none => exact ht
    | some p =>
      cases p with
      | mk t' fid => exact ReachableF.enroll t t' c1Face fid ht h
  | rel fid => exact ReachableF.release t fid ht

theorem reachable_applyFOps (ops : List FOp) :
    ∀ t, ReachableF t → ReachableF (applyFOps t ops) := by
  induction ops with
  | nil => intro t ht; exact ht
  | cons op ops ih => intro t ht; exact ih _ (reachable_applyFOp t ht op)

/-- Fill the ten initial slots, then cycle slot 0 through three release and
re-enroll rounds; each round walks the free list past the end and back to
slot 0, so each bumps `face_gen` by `MAXFACES + 1`.  A final release leaves
slot 0 free with the generation counter at `3 * (MAXFACES + 1)`. -/
def c1PreOps : List FOp :=
  List.replicate 10 FOp.enr ++
    [FOp.rel 0, FOp.enr,
     FOp.rel (1 * (MAXFACES + 1)), FOp.enr,
     FOp.rel (2 * (MAXFACES + 1)), FOp.enr,
     FOp.rel (3 * (MAXFACES + 1))]

/-- State just before the fourth free-list wrap. -/
def c1Tpre : FaceTab := applyFOps initFaceTab c1PreOps

/-- State after the fourth wrap: the generation counter has overflowed to
0 mod 2^32 and slot 0 again stores a face with id 0. -/
def c1Tpost : FaceTab := applyFOps c1Tpre [FOp.enr]

/-- C1 counterexample: the claim asserts that after a slot is reused
following the generation bump on a free-list wrap, lookup with an id minted
before the wrap returns nothing.  In the reachable state `c1Tpre`, id 0 was
minted (first element of the ghost log) long before the wrap performed by
the next enroll, that enroll bumps the generation and reuses slot 0, yet
`face_from_faceid` on id 0 afterwards returns the new face: the 32-bit
generation counter has wrapped around 2^32 and the new occupant received
the stale id again. -/
theorem c1_counterexample :
    ReachableF c1Tpre ∧
    (0, 0) ∈ c1Tpre.minted ∧
    enroll_face c1Tpre c1Face = some (c1Tpost, 0) ∧
    c1Tpost.face_gen_true = c1Tpre.face_gen_true + (MAXFACES + 1) ∧
    (0 &&& MAXFACES) = (0 &&& MAXFACES) ∧
    face_from_faceid c1Tpost 0 ≠ none :=
  ⟨reachable_applyFOps c1PreOps initFaceTab ReachableF.init,
   by decide, by decide, by decide, rfl, by decide⟩

/-- Reachable one-enroll state used to witness `c1_face_table_lookup`. -/
def c1T1 : FaceTab := applyFOps initFaceTab [FOp.enr]

/-- Witness for `c1_face_table_lookup` at the concrete reachable state
`c1T1` (one face enrolled at slot 0 with id 0). -/
theorem c1_witness :
    (face_from_faceid c1T1 0 = some c1Face →
       c1T1.faces_by_faceid[0 &&& MAXFACES]? = some (some c1Face) ∧
       c1Face.faceid = 0)
  ∧ (c1T1.faces_by_faceid[0]? = some (some c1Face) →
       face_from_faceid c1T1 c1Face.faceid = some c1Face)
  ∧ (c1T1.faces_by_faceid[0 &&& MAXFACES]? = some (some c1Face) →
       c1Face.faceid ≠ 0 → face_from_faceid c1T1 0 = none)
  ∧ (enroll_face c1T1 c1Face = some (c1T1, 0) →
     c1T1.face_gen_true = c1T1.face_gen_true + (MAXFACES + 1) →
     c1T1.face_gen_true < U32 →
     (0, 0) ∈ c1T1.minted →
     0 &&& MAXFACES = 0 &&& MAXFACES →
     face_from_faceid c1T1 0 = none) :=
  c1_face_table_lookup c1T1 c1T1 0 0 0 0 c1Face c1Face
    (reachable_applyFOps [FOp.enr] initFaceTab ReachableF.init)

/-- Result of the external codec's `ccn_parse_interest`: the parsed scope
(-1 when absent), ordering preference, prefix component count, and the byte
offsets the daemon reads (nonce bounds, the OTHER section bounds, end of
the Name element, end of the whole interest). -/
structure ParsedInterest where
  scope : Int
  orderpref : Nat
  prefix_comps : Nat
  nonceB : Nat
  nonceE : Nat
  otherB : Nat
  otherE : Nat
  nameE : Nat
  piE : Nat
deriving DecidableEq

/-- Translation of `get_outbound_faces` (ccnd.c:1031): empty for scope 0;
otherwise every enrolled face except the source, where `blockmask` excludes
link-flagged faces exactly when scope is 1.  Pointer inequality with the
source face is modelled by face-id inequality. -/
def outboundPick (fromF : Face) (pi : ParsedInterest) :
    Option (Option Face) → Option Nat
  | some (some face) =>
      if face.faceid = fromF.faceid then none
      else if pi.scope = 1 ∧ face.link = true then none
      else some face.faceid
  | _ => none

def get_outbound_faces (t : FaceTab) (fromF : Face) (msg : List Nat)
    (pi : ParsedInterest) : List Nat :=
  if pi.scope = 0 then []
  else
    (List.range t.faces_by_faceid.length).filterMap
      (fun i => outboundPick fromF pi (t.faces_by_faceid[i]?))

theorem mem_get_outbound (t : FaceTab) (fromF : Face) (msg : List Nat)
    (pi : ParsedInterest) (fid : Nat) :
    fid ∈ get_outbound_faces t fromF msg pi ↔
      (pi.scope ≠ 0 ∧ ∃ (i : Nat) (face : Face), t.faces_by_faceid[i]? = some (some face) ∧
        face.faceid = fid ∧ face.faceid ≠ fromF.faceid ∧
        ¬(pi.scope = 1 ∧ face.link = true)) := by
  unfold get_outbound_faces
  split
  · rename_i h0
    simp [h0]
  · rename_i h0
    rw [List.mem_filterMap]
    constructor
    · rintro ⟨i, hi, hfi⟩
      refine ⟨h0, i, ?_⟩
      cases hcase : t.faces_by_faceid[i]? with
      | none =>
        rw [hcase] at hfi
        simp [outboundPick] at hfi
      | some o =>
        cases o with
        | none =>
          rw [hcase] at hfi
          simp [outboundPick] at hfi
        | some face =>
          rw [hcase] at hfi
          simp only [outboundPick] at hfi
          by_cases he : face.faceid = fromF.faceid
          · rw [if_pos he] at hfi
            exact Option.noConfusion hfi
          · rw [if_neg he] at hfi
            by_cases hl : pi.scope = 1 ∧ face.link = true
            · rw [if_pos hl] at hfi
              exact Option.noConfusion hfi
            · rw [if_neg hl] at hfi
              injection hfi with hfid
              exact ⟨face, rfl, hfid, he, hl⟩
    · rintro ⟨-, i, face, hcase, hfid, hne, hnl⟩
      have hlen : i < t.faces_by_faceid.length := by
        by_contra hc
        rw [List.getElem?_eq_none (by omega)] at hcase
        exact Option.noConfusion hcase
      refine ⟨i, List.mem_range.mpr hlen, ?_⟩
      rw [hcase]
      simp only [outboundPick]
      rw [if_neg hne, if_neg hnl, hfid]

/-- C3: the outbound face set of a forwarded interest is empty for scope 0;
for scope 1 it is exactly the enrolled faces other than the ingress face
that do not carry `CCN_FACE_LINK`; for every other scope it is exactly the
enrolled faces other than the ingress face. -/
theorem c3_outbound_faces (t : FaceTab) (fromF : Face) (msg : List Nat)
    (pi : ParsedInterest) (fid : Nat) :
    (pi.scope = 0 → get_outbound_faces t fromF msg pi = [])
  ∧ (pi.scope = 1 →
      (fid ∈ get_outbound_faces t fromF msg pi ↔
        ∃ (i : Nat) (face : Face), t.faces_by_faceid[i]? = some (some face) ∧
          face.faceid = fid ∧ fid ≠ fromF.faceid ∧ face.link = false))
  ∧ (pi.scope ≠ 0 → pi.scope ≠ 1 →
      (fid ∈ get_outbound_faces t fromF msg pi ↔
        ∃ (i : Nat) (face : Face), t.faces_by_faceid[i]? = some (some face) ∧
          face.faceid = fid ∧ fid ≠ fromF.faceid)) := by
  refine ⟨?_, ?_, ?_⟩
  · intro h0
    simp [get_outbound_faces, h0]
  · intro h1
    rw [mem_get_outbound]
    constructor
    · rintro ⟨-, i, face, hcase, hfid, hne, hnl⟩
      refine ⟨i, face, hcase, hfid, by rw [← hfid]; exact hne, ?_⟩
      cases hl : face.link
      · rfl
      · exact absurd ⟨h1, hl⟩ hnl
    · rintro ⟨i, face, hcase, hfid, hne, hl⟩
      exact ⟨by rw [h1]; exact one_ne_zero, i, face, hcase, hfid,
        by rw [hfid]; exact hne, by simp [hl]⟩
  · intro h0 h1
    rw [mem_get_outbound]
    constructor
    · rintro ⟨-, i, face, hcase, hfid, hne, -⟩
      exact ⟨i, face, hcase, hfid, by rw [← hfid]; exact hne⟩
    · rintro ⟨i, face, hcase, hfid, hne⟩
      exact ⟨h0, i, face, hcase, hfid, by rw [hfid]; exact hne,
        fun hc => h1 hc.1⟩

/-- Delay quantum for content pacing (ccnd.c:565). -/
def CCN_DATA_PAUSE : Nat := 16 * 1024

/-- Translation of `choose_content_delay` (ccnd.c:567): 1 microsecond for a
vanished face, 100 for a datagram face, a randomized pause shifted left by
2 for slow-send content on a link face, and 10 for a local stream face.
The datagram test precedes the link test, as in the source. -/
def choose_content_delay (t : FaceTab) (rand : Nat) (faceid : Nat)
    (slow : Bool) : Nat :=
  match face_from_faceid t faceid with
  | none => 1
  | some face =>
    if face.dgram = true then 100
    else if face.link = true then
      ((rand % CCN_DATA_PAUSE) + CCN_DATA_PAUSE / 2) <<<
        (if slow then 2 else 0)
    else 10

/-- C7 (amended): `choose_content_delay` returns 1 µs for a vanished face;
100 µs for a datagram face regardless of link framing; for a link-framed
stream (non-datagram) face a value `(rand % CCN_DATA_PAUSE) +
CCN_DATA_PAUSE/2`, which ranges over exactly
`[CCN_DATA_PAUSE/2, CCN_DATA_PAUSE*3/2)`, shifted left by 2 when the
content carries the slow-send flag; and 10 µs for a local stream face.
(The claim as frozen asserts the randomized pause for every link-framed
face; `c7_counterexample` shows a datagram link-framed face gets 100.) -/
theorem c7_content_delay (t : FaceTab) (rand faceid v : Nat) (slow : Bool)
    (face : Face) :
    (face_from_faceid t faceid = none →
      choose_content_delay t rand faceid slow = 1)
  ∧ (face_from_faceid t faceid = some face → face.dgram = true →
      choose_content_delay t rand faceid slow = 100)
  ∧ (face_from_faceid t faceid = some face → face.dgram = false →
      face.link = true →
      choose_content_delay t rand faceid slow =
        ((rand % CCN_DATA_PAUSE) + CCN_DATA_PAUSE / 2) <<<
          (if slow then 2 else 0) ∧
      CCN_DATA_PAUSE / 2 ≤ (rand % CCN_DATA_PAUSE) + CCN_DATA_PAUSE / 2 ∧
      (rand % CCN_DATA_PAUSE) + CCN_DATA_PAUSE / 2 < CCN_DATA_PAUSE * 3 / 2)
  ∧ (CCN_DATA_PAUSE / 2 ≤ v → v < CCN_DATA_PAUSE * 3 / 2 →
      ∃ r, (r % CCN_DATA_PAUSE) + CCN_DATA_PAUSE / 2 = v)
  ∧ (face_from_faceid t faceid = some face → face.dgram = false →
      face.link = false →
      choose_content_delay t rand faceid slow = 10) := by
  have hpause : CCN_DATA_PAUSE = 16384 := by norm_num [CCN_DATA_PAUSE]
  refine ⟨?_, ?_, ?_, ?_, ?_⟩
  · intro h
    unfold choose_content_delay
    rw [h]
  · intro h hd
    unfold choose_content_delay
    rw [h]
    simp [hd]
  · intro h hd hl
    unfold choose_content_delay
    rw [h]
    refine ⟨by simp [hd, hl], by omega, ?_⟩
    have := Nat.mod_lt rand (show 0 < CCN_DATA_PAUSE by omega)
    omega
  · intro hlo hhi
    refine ⟨v - CCN_DATA_PAUSE / 2, ?_⟩
    have hlt : v - CCN_DATA_PAUSE / 2 < CCN_DATA_PAUSE := by omega
    rw [Nat.mod_eq_of_lt hlt]
    omega
  · intro h hd hl
    unfold choose_content_delay
    rw [h]
    simp [hd, hl]

/-- Datagram face that also became link-framed (a udplink peer whose first
message carried the PDU envelope). -/
def c7Face : Face := ⟨0, true, true, 0⟩

/-- One-face state holding the datagram+link face, built by an enroll. -/
def c7T : FaceTab := ((enroll_face initFaceTab c7Face).getD (initFaceTab, 0)).1

/-- C7 counterexample: the claim assigns every link-framed face a delay in
`[CCN_DATA_PAUSE/2, CCN_DATA_PAUSE*3/2)` microseconds, but for a face that
is both datagram and link-framed the datagram branch fires first and the
delay is 100, far below `CCN_DATA_PAUSE/2 = 8192`. -/
theorem c7_counterexample :
    ReachableF c7T ∧
    face_from_faceid c7T 0 = some c7Face ∧
    c7Face.link = true ∧
    choose_content_delay c7T 0 0 false = 100 ∧
    ¬(CCN_DATA_PAUSE / 2 ≤ 100) :=
  ⟨ReachableF.enroll initFaceTab c7T c7Face 0 ReachableF.init (by decide),
   by decide, rfl, by decide, by decide⟩

/-- Stored ContentObject (struct content_entry).  `key` holds the first
`key_size` bytes of the encoded message and `tail` the remainder, as the
content hashtable stores them; `comps` are the component byte offsets;
`faces` is the face-send set with its two partition bounds; `slow` is the
`CCN_CONTENT_ENTRY_SLOWSEND` flag; `sender` records whether a send task is
scheduled. -/
structure ContentEntry where
  accession : Nat
  key : List Nat
  tail : List Nat
  ncomps : Nat
  comps : List Nat
  sig_offset : Nat
  faces : Option (List Nat)
  nface_done : Nat
  nface_old : Nat
  slow : Bool
  skiplinks : Option (List Nat)
  sender : Bool
deriving DecidableEq

/-- Bytes `xs[off .. off+len)`, the reading that `memcmp(xs+off, .., len)`
performs. -/
def byteRange (xs : List Nat) (off len : Nat) : List Nat :=
  (xs.drop off).take len

/-- Tail of `content_matches_interest_prefix` after any digest stripping:
compare the total byte span of the first `p` components and then the bytes
themselves. -/
def cmiCore (content : ContentEntry) (msg : List Nat) (comps : List Nat)
    (p : Nat) : Bool :=
  let prefixlen := comps.getD p 0 - comps.getD 0 0
  decide (content.comps.getD p 0 - content.comps.getD 0 0 = prefixlen) &&
  decide (byteRange content.key (content.comps.getD 0 0) prefixlen =
    byteRange msg (comps.getD 0 0) prefixlen)

/-- Translation of `content_matches_interest_prefix` (ccnd.c:362).  The
`abort()` on an out-of-range prefix count becomes `none`.  When the content
has too few components, a final interest component of encoded length
`1 + 2 + 32 + 1` is treated as an explicit content digest and stripped. -/
def content_matches_interest_pfx (content : ContentEntry) (msg : List Nat)
    (comps : List Nat) (p : Nat) : Option Bool :=
  if p < comps.length then
    if content.ncomps < p + 1 then
      if content.ncomps = p ∧ 0 < p ∧
          comps.getD p 0 - comps.getD (p - 1) 0 = 1 + 2 + 32 + 1 then
        some (cmiCore content msg comps (p - 1))
      else some false
    else some (cmiCore content msg comps p)
  else none

/-- Component count used by the claim's byte comparison: `p` for a strict
prefix, `p - 1` after the digest component is stripped. -/
def c5q (content : ContentEntry) (p : Nat) : Nat :=
  if content.ncomps ≥ p + 1 then p else p - 1

/-- The matching condition exactly as the claim words it: a strict prefix
(`ncomps ≥ p + 1`), or an `ncomps`-equal content after stripping a final
digest-length component; and byte-identical first `p` (after stripping)
name segments, i.e. equal byte spans holding equal bytes. -/
def c5Spec (content : ContentEntry) (msg : List Nat) (comps : List Nat)
    (p : Nat) : Prop :=
  (content.ncomps ≥ p + 1 ∨
    (content.ncomps = p ∧ 0 < p ∧
      comps.getD p 0 - comps.getD (p - 1) 0 = 1 + 2 + 32 + 1)) ∧
  byteRange msg (comps.getD 0 0)
      (comps.getD (c5q content p) 0 - comps.getD 0 0) =
    byteRange content.key (content.comps.getD 0 0)
      (comps.getD (c5q content p) 0 - comps.getD 0 0) ∧
  content.comps.getD (c5q content p) 0 - content.comps.getD 0 0 =
    comps.getD (c5q content p) 0 - comps.getD 0 0

theorem cmiCore_true (content : ContentEntry) (msg : List Nat)
    (comps : List Nat) (q : Nat) :
    cmiCore content msg comps q = true ↔
      (content.comps.getD q 0 - content.comps.getD 0 0 =
        comps.getD q 0 - comps.getD 0 0) ∧
      byteRange content.key (content.comps.getD 0 0)
          (comps.getD q 0 - comps.getD 0 0) =
        byteRange msg (comps.getD 0 0) (comps.getD q 0 - comps.getD 0 0) := by
  unfold cmiCore
  rw [Bool.and_eq_true, decide_eq_true_eq, decide_eq_true_eq]

/-- C5: `content_matches_interest_prefix` accepts exactly the contents
described by the claim: either a strict prefix with one reserved child
position, or an `ncomps`-equal content whose final interest component has
the explicit content-digest encoded length 1 + 2 + 32 + 1 and is stripped;
and in either case the first (possibly stripped) `p` byte segments of the
interest name byte-identical to the content name's. -/
theorem c5_prefix_match (content : ContentEntry) (msg : List Nat)
    (comps : List Nat) (p : Nat) (hp : p < comps.length) :
    content_matches_interest_pfx content msg comps p = some true ↔
      c5Spec content msg comps p := by
  unfold content_matches_interest_pfx c5Spec
  rw [if_pos hp]
  by_cases hlt : content.ncomps < p + 1
  · rw [if_pos hlt]
    have hge : ¬ content.ncomps ≥ p + 1 := by omega
    have hq : c5q content p = p - 1 := if_neg hge
    rw [hq]
    by_cases hstrip : content.ncomps = p ∧ 0 < p ∧
        comps.getD p 0 - comps.getD (p - 1) 0 = 1 + 2 + 32 + 1
    · rw [if_pos hstrip]
      constructor
      · intro h
        injection h with h1
        rw [cmiCore_true] at h1
        exact ⟨Or.inr hstrip, h1.2.symm, h1.1⟩
      · rintro ⟨-, hbytes, hspan⟩
        congr 1
        rw [cmiCore_true]
        exact ⟨hspan, hbytes.symm⟩
    · rw [if_neg hstrip]
      constructor
      · intro h
        injection h with h1
        exact Bool.noConfusion h1
      · rintro ⟨hdisj, -⟩
        rcases hdisj with hdisj | hdisj
        · omega
        · exact absurd hdisj hstrip
  · rw [if_neg hlt]
    have hge : content.ncomps ≥ p + 1 := by omega
    have hq : c5q content p = p := if_pos hge
    rw [hq]
    constructor
    · intro h
      injection h with h1
      rw [cmiCore_true] at h1
      exact ⟨Or.inl hge, h1.2.symm, h1.1⟩
    · rintro ⟨-, hbytes, hspan⟩
      congr 1
      rw [cmiCore_true]
      exact ⟨hspan, hbytes.symm⟩

/-- Concrete stored content with two name components spanning bytes 0-2. -/
def c5C : ContentEntry := ⟨1, [9, 9], [7], 2, [0, 2], 0, none, 0, 0, false, none, false⟩

/-- Witness for `c5_prefix_match`: a one-component interest prefix over the
same two bytes, matched against `c5C`. -/
theorem c5_witness :
    1 < List.length [0, 2] ∧
    (content_matches_interest_pfx c5C [9, 9] [0, 2] 1 = some true ↔
      c5Spec c5C [9, 9] [0, 2] 1) :=
  ⟨by decide, c5_prefix_match c5C [9, 9] [0, 2] 1 (by decide)⟩

/-- Modelled from the spec: `CCN_UNIT_INTEREST` lives in the header
`ccnd_private.h`, which is not among the sources; the spec describes it as
the demand quantum added per interest arrival.  The theorems below do not
depend on the particular (positive) value. -/
def CCN_UNIT_INTEREST : Nat := 5

/-- Interest-prefix table entry (struct interestprefix_entry): component
count of the prefix, the two parallel demand vectors, the idle-pass
counter, and the list of propagating interests (by nonce key) hanging off
this prefix, modelling the doubly-linked `propagating_head` list. -/
structure IpeEntry where
  ncomp : Nat
  interested_faceid : List Nat
  counters : List Nat
  idle : Nat
  propagating : List (List Nat)
deriving DecidableEq

/-- Per-counter aging step for a nonzero counter, as in `age_interests`:
decay by `(c*5+3)/6` (5/6 rounded to nearest) above the unit, else
decrement. -/
def ageCount (c : Nat) : Nat :=
  if CCN_UNIT_INTEREST < c then (c * 5 + 3) / 6 else c - 1

/-- Translation of the counter loop of `age_interests` (ccnd.c:803-819)
over the parallel vectors: position `i` is decayed or decremented and the
scan advances, or a zero counter is removed by moving position `n-1` of
both vectors into place and shrinking `n` without advancing. -/
def ageLoop (fs cs : List Nat) (i n : Nat) : List Nat × List Nat :=
  if h : i < n then
    if CCN_UNIT_INTEREST < cs.getD i 0 then
      ageLoop fs (cs.set i ((cs.getD i 0 * 5 + 3) / 6)) (i + 1) n
    else if 0 < cs.getD i 0 then
      ageLoop fs (cs.set i (cs.getD i 0 - 1)) (i + 1) n
    else
      ageLoop (fs.set i (fs.getD (n - 1) 0)) (cs.set i (cs.getD (n - 1) 0))
        i (n - 1)
  else (fs.take n, cs.take n)
termination_by n - i
decreasing_by all_goals omega

/-- The same loop acting on the list of `(faceid, counter)` pairs; the
parallel-vector loop computes exactly the zip of this one. -/
def pairAgeLoop (zs : List (Nat × Nat)) (i n : Nat) : List (Nat × Nat) :=
  if h : i < n then
    if CCN_UNIT_INTEREST < (zs.getD i (0, 0)).2 then
      pairAgeLoop
        (zs.set i ((zs.getD i (0, 0)).1, ((zs.getD i (0, 0)).2 * 5 + 3) / 6))
        (i + 1) n
    else if 0 < (zs.getD i (0, 0)).2 then
      pairAgeLoop (zs.set i ((zs.getD i (0, 0)).1, (zs.getD i (0, 0)).2 - 1))
        (i + 1) n
    else
      pairAgeLoop (zs.set i (zs.getD (n - 1) (0, 0))) i (n - 1)
  else zs.take n
termination_by n - i
decreasing_by all_goals omega

/-- One `age_interests` pass over a single prefix entry (ccnd.c:795-821):
read `n`; reset `idle` when there are counters, otherwise bump `idle` and
delete the entry (`none`) once it exceeds 8; then run the counter loop. -/
def age_interest_entry (e : IpeEntry) : Option IpeEntry :=
  if 0 < e.counters.length then
    some { e with
      idle := 0
      interested_faceid :=
        (ageLoop e.interested_faceid e.counters 0 e.counters.length).1
      counters :=
        (ageLoop e.interested_faceid e.counters 0 e.counters.length).2 }
  else if e.idle + 1 > 8 then none
  else some { e with idle := e.idle + 1 }

/-- Translation of `age_interests` (ccnd.c:784): one aging pass over the
whole interest-prefix table. -/
def age_interests (tab : List (List Nat × IpeEntry)) :
    List (List Nat × IpeEntry) :=
  tab.filterMap (fun kv =>
    match age_interest_entry kv.2 with
    | some e' => some (kv.1, e')
    | none => none)

/-- Expected outcome of one pass on the zipped demand vectors: the pairs
with zero counters are gone and every surviving counter is aged. -/
def agedPairs (ps : List (Nat × Nat)) : List (Nat × Nat) :=
  (ps.filter (fun q => decide (q.2 ≠ 0))).map (fun q => (q.1, ageCount q.2))

theorem agedPairs_cons_ne (p : Nat × Nat) (ps : List (Nat × Nat))
    (h : p.2 ≠ 0) :
    agedPairs (p :: ps) = (p.1, ageCount p.2) :: agedPairs ps := by
  simp [agedPairs, h]

theorem agedPairs_cons_zero (p : Nat × Nat) (ps : List (Nat × Nat))
    (h : p.2 = 0) : agedPairs (p :: ps) = agedPairs ps := by
  simp [agedPairs, h]

theorem agedPairs_perm {ps qs : List (Nat × Nat)} (h : ps.Perm qs) :
    (agedPairs ps).Perm (agedPairs qs) :=
  (h.filter _).map _

theorem zipTake (n : Nat) : ∀ (l1 l2 : List Nat),
    (l1.take n).zip (l2.take n) = (l1.zip l2).take n := by
  induction n with
  | zero => intro l1 l2; simp
  | succ n ih =>
    intro l1 l2
    cases l1 with
    | nil => simp
    | cons a as =>
      cases l2 with
      | nil => simp
      | cons b bs => simp [ih]

theorem zipSetSet (i : Nat) : ∀ (l1 l2 : List Nat) (a b : Nat),
    (l1.set i a).zip (l2.set i b) = (l1.zip l2).set i (a, b) := by
  induction i with
  | zero =>
    intro l1 l2 a b
    cases l1 with
    | nil => simp
    | cons x xs =>
      cases l2 with
      | nil => simp
      | cons y ys => simp [List.set, List.zip]
  | succ i ih =>
    intro l1 l2 a b
    cases l1 with
    | nil => simp
    | cons x xs =>
      cases l2 with
      | nil => simp
      | cons y ys =>
        simp only [List.set, List.zip_cons_cons]
        rw [ih xs ys a b]
        rfl

theorem zipSetSnd (i : Nat) : ∀ (l1 l2 : List Nat) (b : Nat),
    i < l1.length →
    l1.zip (l2.set i b) = (l1.zip l2).set i (l1.getD i 0, b) := by
  induction i with
  | zero =>
    intro l1 l2 b h
    cases l1 with
    | nil => simp at h
    | cons x xs =>
      cases l2 with
      | nil => simp
      | cons y ys => simp [List.set, List.zip]
  | succ i ih =>
    intro l1 l2 b h
    cases l1 with
    | nil => simp at h
    | cons x xs =>
      cases l2 with
      | nil => simp
      | cons y ys =>
        simp only [List.set, List.zip_cons_cons, List.getD_cons_succ]
        rw [ih xs ys b (by simpa using h)]
        rfl

theorem zipGetD (i : Nat) : ∀ (l1 l2 : List Nat),
    i < l1.length → i < l2.length →
    (l1.zip l2).getD i (0, 0) = (l1.getD i 0, l2.getD i 0) := by
  induction i with
  | zero =>
    intro l1 l2 h1 h2
    cases l1 with
    | nil => simp at h1
    | cons x xs =>
      cases l2 with
      | nil => simp at h2
      | cons y ys => simp
  | succ i ih =>
    intro l1 l2 h1 h2
    cases l1 with
    | nil => simp at h1
    | cons x xs =>
      cases l2 with
      | nil => simp at h2
      | cons y ys =>
        simp only [List.zip_cons_cons, List.getD_cons_succ]
        exact ih xs ys (by simpa using h1) (by simpa using h2)

theorem ageLoop_len (k : Nat) : ∀ (fs cs : List Nat) (i n : Nat),
    n - i ≤ k → fs.length = cs.length →
    (ageLoop fs cs i n).1.length = (ageLoop fs cs i n).2.length := by
  induction k with
  | zero =>
    intro fs cs i n hk hlen
    have hin : ¬ i < n := by omega
    rw [ageLoop, dif_neg hin]
    simp [hlen]
  | succ k ih =>
    intro fs cs i n hk hlen
    by_cases hlt : i < n
    · rw [ageLoop, dif_pos hlt]
      by_cases hc1 : CCN_UNIT_INTEREST < cs.getD i 0
      · rw [if_pos hc1]
        exact ih fs _ (i + 1) n (by omega) (by simpa using hlen)
      · rw [if_neg hc1]
        by_cases hc2 : 0 < cs.getD i 0
        · rw [if_pos hc2]
          exact ih fs _ (i + 1) n (by omega) (by simpa using hlen)
        · rw [if_neg hc2]
          exact ih _ _ i (n - 1) (by omega) (by simpa using hlen)
    · rw [ageLoop, dif_neg hlt]
      simp [hlen]

theorem ageLoop_zip (k : Nat) : ∀ (fs cs : List Nat) (i n : Nat),
    n - i ≤ k → fs.length = cs.length → n ≤ cs.length →
    (ageLoop fs cs i n).1.zip (ageLoop fs cs i n).2 =
      pairAgeLoop (fs.zip cs) i n := by
  induction k with
  | zero =>
    intro fs cs i n hk hlen hn
    have hin : ¬ i < n := by omega
    rw [ageLoop, dif_neg hin, pairAgeLoop, dif_neg hin]
    exact zipTake n fs cs
  | succ k ih =>
    intro fs cs i n hk hlen hn
    by_cases hlt : i < n
    · rw [ageLoop, dif_pos hlt, pairAgeLoop, dif_pos hlt]
      have hgi : (fs.zip cs).getD i (0, 0) = (fs.getD i 0, cs.getD i 0) :=
        zipGetD i fs cs (by omega) (by omega)
      rw [hgi]
      by_cases hc1 : CCN_UNIT_INTEREST < cs.getD i 0
      · rw [if_pos hc1, if_pos hc1]
        rw [← zipSetSnd i fs cs _ (by omega)]
        exact ih fs _ (i + 1) n (by omega) (by simpa using hlen)
          (by simpa using hn)
      · rw [if_neg hc1, if_neg hc1]
        by_cases hc2 : 0 < cs.getD i 0
        · rw [if_pos hc2, if_pos hc2]
          rw [← zipSetSnd i fs cs _ (by omega)]
          exact ih fs _ (i + 1) n (by omega) (by simpa using hlen)
            (by simpa using hn)
        · rw [if_neg hc2, if_neg hc2]
          have hgn : (fs.zip cs).getD (n - 1) (0, 0) =
              (fs.getD (n - 1) 0, cs.getD (n - 1) 0) :=
            zipGetD (n - 1) fs cs (by omega) (by omega)
          rw [hgn, ← zipSetSet i fs cs]
          exact ih _ _ i (n - 1) (by omega) (by simpa using hlen)
            (by simp only [List.length_set]; omega)
    · rw [ageLoop, dif_neg hlt, pairAgeLoop, dif_neg hlt]
      exact zipTake n fs cs

theorem pairAgeLoop_perm (k : Nat) : ∀ (zs : List (Nat × Nat)) (i n : Nat),
    n - i ≤ k → i ≤ n → n ≤ zs.length →
    (pairAgeLoop zs i n).Perm
      (zs.take i ++ agedPairs ((zs.drop i).take (n - i))) := by
  induction k with
  | zero =>
    intro zs i n hk hin hlen
    have hin' : ¬ i < n := by omega
    rw [pairAgeLoop, dif_neg hin']
    have hni : n - i = 0 := by omega
    have hi : i = n := by omega
    subst hi
    rw [hni]
    simp [agedPairs]
  | succ k ih =>
    intro zs i n hk hin hlen
    by_cases hlt : i < n
    · rw [pairAgeLoop, dif_pos hlt]
      have hizs : i < zs.length := by omega
      have hget : zs.getD i (0, 0) = zs[i] := by
        rw [List.getD_eq_getElem?_getD, List.getElem?_eq_getElem hizs]
        rfl
      have hdrop : zs.drop i = zs[i] :: zs.drop (i + 1) :=
        List.drop_eq_getElem_cons hizs
      have hwin : (zs.drop i).take (n - i) =
          zs[i] :: (zs.drop (i + 1)).take (n - i - 1) := by
        rw [hdrop, show n - i = (n - i - 1) + 1 by omega]
        rfl
      by_cases hc1 : CCN_UNIT_INTEREST < (zs.getD i (0, 0)).2
      · rw [if_pos hc1]
        have hperm := ih
          (zs.set i ((zs.getD i (0, 0)).1, ((zs.getD i (0, 0)).2 * 5 + 3) / 6))
          (i + 1) n (by omega) (by omega) (by simpa using hlen)
        refine hperm.trans ?_
        have htake : (zs.set i
            ((zs.getD i (0, 0)).1, ((zs.getD i (0, 0)).2 * 5 + 3) / 6)).take
              (i + 1) =
            zs.take i ++ [((zs.getD i (0, 0)).1,
              ((zs.getD i (0, 0)).2 * 5 + 3) / 6)] := by
          rw [List.take_succ, List.set_take,
            List.set_eq_of_length_le (by simp), List.getElem?_set_self hizs]
          rfl
        have hdrop1 : (zs.set i
            ((zs.getD i (0, 0)).1, ((zs.getD i (0, 0)).2 * 5 + 3) / 6)).drop
              (i + 1) = zs.drop (i + 1) := by
          rw [List.drop_set]
          simp
        rw [htake, hdrop1, hwin,
          agedPairs_cons_ne _ _ (by rw [← hget]; omega)]
        have hac : ageCount (zs[i]).2 = ((zs[i]).2 * 5 + 3) / 6 := by
          unfold ageCount
          rw [if_pos (by rw [← hget]; omega)]
        rw [hac, ← hget, show n - (i + 1) = n - i - 1 from by omega]
        simp
      · rw [if_neg hc1]
        split
        · rename_i hc2g
          have hc2 : 0 < (zs.getD i (0, 0)).2 := hc2g
          have hperm := ih
            (zs.set i ((zs.getD i (0, 0)).1, (zs.getD i (0, 0)).2 - 1))
            (i + 1) n (by omega) (by omega) (by simpa using hlen)
          refine hperm.trans ?_
          have htake : (zs.set i
              ((zs.getD i (0, 0)).1, (zs.getD i (0, 0)).2 - 1)).take (i + 1) =
              zs.take i ++ [((zs.getD i (0, 0)).1, (zs.getD i (0, 0)).2 - 1)] := by
            rw [List.take_succ, List.set_take,
              List.set_eq_of_length_le (by simp), List.getElem?_set_self hizs]
            rfl
          have hdrop1 : (zs.set i
              ((zs.getD i (0, 0)).1, (zs.getD i (0, 0)).2 - 1)).drop (i + 1) =
              zs.drop (i + 1) := by
            rw [List.drop_set]
            simp
          rw [htake, hdrop1, hwin,
            agedPairs_cons_ne _ _ (by rw [← hget]; omega)]
          have hac : ageCount (zs[i]).2 = (zs[i]).2 - 1 := by
            unfold ageCount
            rw [if_neg (by rw [← hget]; omega)]
          rw [hac, ← hget, show n - (i + 1) = n - i - 1 from by omega]
          simp
        · rename_i hc2g
          have hc2 : ¬ 0 < (zs.getD i (0, 0)).2 := hc2g
          have hz : (zs[i]).2 = 0 := by rw [← hget]; omega
          have hn1 : n - 1 < zs.length := by omega
          have hgn : zs.getD (n - 1) (0, 0) = zs[n - 1] := by
            rw [List.getD_eq_getElem?_getD, List.getElem?_eq_getElem hn1]
            rfl
          have hperm := ih (zs.set i (zs.getD (n - 1) (0, 0))) i (n - 1)
            (by omega) (by omega) (by simp only [List.length_set]; omega)
          refine hperm.trans ?_
          have htake : (zs.set i (zs.getD (n - 1) (0, 0))).take i =
              zs.take i := by
            rw [List.set_take, List.set_eq_of_length_le (by simp)]
          rw [htake, hwin, agedPairs_cons_zero _ _ hz]
          apply List.Perm.append_left
          rcases Nat.lt_or_ge i (n - 1) with hcase | hcase
          · have hdropset : (zs.set i (zs.getD (n - 1) (0, 0))).drop i =
                zs[n - 1] :: zs.drop (i + 1) := by
              rw [List.drop_eq_getElem_cons
                  (by simp only [List.length_set]; omega)]
              congr 1
              · rw [List.getElem_set]
                simp [hgn.symm]
              · rw [List.drop_set]
                simp
            have hwin2 : ((zs.set i (zs.getD (n - 1) (0, 0))).drop i).take
                (n - 1 - i) =
                zs[n - 1] :: (zs.drop (i + 1)).take (n - i - 2) := by
              rw [hdropset, show n - 1 - i = (n - i - 2) + 1 by omega]
              rfl
            have hwin3 : (zs.drop (i + 1)).take (n - i - 1) =
                (zs.drop (i + 1)).take (n - i - 2) ++ [zs[n - 1]] := by
              rw [show n - i - 1 = (n - i - 2) + 1 by omega, List.take_succ]
              congr 1
              rw [List.getElem?_drop,
                show i + 1 + (n - i - 2) = n - 1 by omega,
                List.getElem?_eq_getElem hn1]
              rfl
            rw [hwin2, hwin3]
            refine (agedPairs_perm ?_).symm
            exact List.perm_append_singleton _ _
          · have hieq : i = n - 1 := by omega
            have hwin0 : n - 1 - i = 0 := by omega
            rw [hwin0]
            have hwin4 : (n - i - 1) = 0 := by omega
            rw [hwin4]
            simp [agedPairs]
    · rw [pairAgeLoop, dif_neg hlt]
      have hni : n - i = 0 := by omega
      have hi : i = n := by omega
      subst hi
      rw [hni]
      simp [agedPairs]

/-- C6: one aging pass transforms each interest-prefix entry as the claim
describes: counters strictly above `CCN_UNIT_INTEREST` become
`(c*5+3)/6` (multiplication by 5/6, rounded to nearest), counters equal to
`CCN_UNIT_INTEREST` (indeed every counter in `(0, CCN_UNIT_INTEREST]`)
decrement by 1, zero counters are removed together with their face ids by
the swap-with-last loop (the surviving pairs are exactly a permutation of
the aged nonzero pairs, and the parallel vectors keep equal length), an
entry with at least one counter has `idle` reset to 0, and an entry with
no counters is deleted from the table once it has stayed empty for more
than 8 consecutive passes. -/
theorem c6_age_interests (e : IpeEntry) (k : List Nat)
    (tab : List (List Nat × IpeEntry))
    (hlen : e.interested_faceid.length = e.counters.length) :
    (age_interests ((k, e) :: tab) =
      match age_interest_entry e with
      | some e' => (k, e') :: age_interests tab
      | none => age_interests tab)
  ∧ (e.counters ≠ [] →
      ∃ e', age_interest_entry e = some e' ∧
        e'.idle = 0 ∧
        e'.interested_faceid.length = e'.counters.length ∧
        (e'.interested_faceid.zip e'.counters).Perm
          (agedPairs (e.interested_faceid.zip e.counters)) ∧
        (∀ f c, (f, c) ∈ e.interested_faceid.zip e.counters → c ≠ 0 →
          (f, ageCount c) ∈ e'.interested_faceid.zip e'.counters) ∧
        (∀ p, p ∈ e'.interested_faceid.zip e'.counters →
          ∃ q, q ∈ e.interested_faceid.zip e.counters ∧ q.2 ≠ 0 ∧
            p = (q.1, ageCount q.2)))
  ∧ (∀ c, CCN_UNIT_INTEREST < c → ageCount c = (c * 5 + 3) / 6)
  ∧ (∀ c, 0 < c → c ≤ CCN_UNIT_INTEREST → ageCount c = c - 1)
  ∧ (e.counters = [] → e.idle + 1 ≤ 8 →
      age_interest_entry e = some { e with idle := e.idle + 1 })
  ∧ (e.counters = [] → e.idle + 1 > 8 → age_interest_entry e = none) := by
  refine ⟨?_, ?_, ?_, ?_, ?_, ?_⟩
  · cases h : age_interest_entry e <;> simp [age_interests, h]
  · intro hne
    have hn : 0 < e.counters.length := List.length_pos.mpr hne
    refine ⟨_, by unfold age_interest_entry; rw [if_pos hn], rfl, ?_, ?_, ?_, ?_⟩
    · exact ageLoop_len e.counters.length e.interested_faceid e.counters 0
        e.counters.length (by omega) hlen
    · have hzip := ageLoop_zip e.counters.length e.interested_faceid
        e.counters 0 e.counters.length (by omega) hlen (le_refl _)
      have hzlen : (e.interested_faceid.zip e.counters).length =
          e.counters.length := by
        rw [List.length_zip, hlen]
        omega
      have hperm := pairAgeLoop_perm e.counters.length
        (e.interested_faceid.zip e.counters) 0 e.counters.length
        (by omega) (by omega) (by omega)
      have htk : (e.interested_faceid.zip e.counters).take e.counters.length =
          e.interested_faceid.zip e.counters := by
        rw [← hzlen, List.take_length]
      rw [List.take_zero, List.drop_zero, Nat.sub_zero, List.nil_append,
        htk] at hperm
      rw [hzip]
      exact hperm
    all_goals {
      have hzip := ageLoop_zip e.counters.length e.interested_faceid
        e.counters 0 e.counters.length (by omega) hlen (le_refl _)
      have hzlen : (e.interested_faceid.zip e.counters).length =
          e.counters.length := by
        rw [List.length_zip, hlen]
        omega
      have hperm := pairAgeLoop_perm e.counters.length
        (e.interested_faceid.zip e.counters) 0 e.counters.length
        (by omega) (by omega) (by omega)
      have htk : (e.interested_faceid.zip e.counters).take e.counters.length =
          e.interested_faceid.zip e.counters := by
        rw [← hzlen, List.take_length]
      rw [List.take_zero, List.drop_zero, Nat.sub_zero, List.nil_append,
        htk] at hperm
      first
      | { intro f c hmem hcz
          dsimp only
          rw [hzip, hperm.mem_iff]
          unfold agedPairs
          exact List.mem_map.mpr ⟨(f, c),
            List.mem_filter.mpr ⟨hmem, by simpa using hcz⟩, rfl⟩ }
      | { intro p hp
          dsimp only at hp
          rw [hzip, hperm.mem_iff] at hp
          unfold agedPairs at hp
          obtain ⟨q, hq, hpq⟩ := List.mem_map.mp hp
          obtain ⟨hqm, hqz⟩ := List.mem_filter.mp hq
          exact ⟨q, hqm, by simpa using hqz, hpq.symm⟩ } }
  · intro c hc
    unfold ageCount
    rw [if_pos hc]
  · intro c hc0 hcu
    unfold ageCount
    rw [if_neg (by omega)]
  · intro hnil hidle
    unfold age_interest_entry
    rw [hnil]
    simp only [List.length_nil, lt_irrefl, if_false]
    rw [if_neg (by omega)]
  · intro hnil hidle
    unfold age_interest_entry
    rw [hnil]
    simp only [List.length_nil, lt_irrefl, if_false]
    rw [if_pos (by omega)]

/-- Concrete one-face prefix entry used to witness `c6_age_interests`. -/
def c6E : IpeEntry := ⟨1, [7], [3], 0, []⟩

/-- Witness for `c6_age_interests` at the concrete entry `c6E`. -/
theorem c6_witness :
    c6E.interested_faceid.length = c6E.counters.length ∧
    ((age_interests (([], c6E) :: []) =
      match age_interest_entry c6E with
      | some e' => ([], e') :: age_interests []
      | none => age_interests [])
  ∧ (c6E.counters ≠ [] →
      ∃ e', age_interest_entry c6E = some e' ∧
        e'.idle = 0 ∧
        e'.interested_faceid.length = e'.counters.length ∧
        (e'.interested_faceid.zip e'.counters).Perm
          (agedPairs (c6E.interested_faceid.zip c6E.counters)) ∧
        (∀ f c, (f, c) ∈ c6E.interested_faceid.zip c6E.counters → c ≠ 0 →
          (f, ageCount c) ∈ e'.interested_faceid.zip e'.counters) ∧
        (∀ p, p ∈ e'.interested_faceid.zip e'.counters →
          ∃ q, q ∈ c6E.interested_faceid.zip c6E.counters ∧ q.2 ≠ 0 ∧
            p = (q.1, ageCount q.2)))
  ∧ (∀ c, CCN_UNIT_INTEREST < c → ageCount c = (c * 5 + 3) / 6)
  ∧ (∀ c, 0 < c → c ≤ CCN_UNIT_INTEREST → ageCount c = c - 1)
  ∧ (c6E.counters = [] → c6E.idle + 1 ≤ 8 →
      age_interest_entry c6E = some { c6E with idle := c6E.idle + 1 })
  ∧ (c6E.counters = [] → c6E.idle + 1 > 8 → age_interest_entry c6E = none)) :=
  ⟨rfl, c6_age_interests c6E [] [] rfl⟩

/-- Propagating-interest entry (struct propagating_entry), keyed in
`propagating_tab` by the nonce bytes: the saved interest message (freed,
i.e. `none`, once propagation finishes), its size, the ingress face id,
and the remaining outbound face ids. -/
structure PropEntry where
  interest_msg : Option (List Nat)
  size : Nat
  faceid : Nat
  outbound : Option (List Nat)
deriving DecidableEq

/-- Association-list lookup modelling `hashtb_lookup`. -/
def alookup {α : Type} (tab : List (List Nat × α)) (key : List Nat) :
    Option α :=
  (tab.find? (fun kv => decide (kv.1 = key))).map (fun kv => kv.2)

/-- Insert-or-replace modelling `hashtb_seek` plus mutation of the entry. -/
def aupdate {α : Type} (tab : List (List Nat × α)) (key : List Nat)
    (v : α) : List (List Nat × α) :=
  match tab with
  | [] => [(key, v)]
  | kv :: rest =>
      if kv.1 = key then (key, v) :: rest else kv :: aupdate rest key v

/-- Whole-daemon state (struct ccnd), restricted to the fields the claims
touch.  `content_by_accession` is the dense accession window, holding for
each slot the key of the entry (the entries themselves are owned by
`content_tab`, as they are owned by the content hashtable in C);
`skiplinks` is the skiplist head; `out` logs the bytes handed to
`do_write` per face; `sched` logs scheduled events as (kind, delay) with
kind 0 for `do_propagate` and 1 for `content_sender`. -/
structure Ccnd where
  facetab : FaceTab
  skiplinks : List Nat
  accession : Nat
  accession_base : Nat
  content_by_accession : List (Option (List Nat))
  content_tab : List (List Nat × ContentEntry)
  interestprefix_tab : List (List Nat × IpeEntry)
  propagating_tab : List (List Nat × PropEntry)
  interests_dropped : Nat
  interests_accepted : Nat
  interests_sent : Nat
  content_items_sent : Nat
  content_dups_recvd : Nat
  randidx : Nat
  out : List (Nat × List Nat)
  sched : List (Nat × Nat)
  aging_armed : Bool
deriving DecidableEq

/-- Translation of `content_from_accession` (ccnd.c:209): inside the
window, follow the dense slot to the entry and accept it only when its
stored accession matches. -/
def content_from_accession (s : Ccnd) (acc : Nat) : Option ContentEntry :=
  if s.accession_base ≤ acc ∧
      acc < s.accession_base + s.content_by_accession.length then
    match s.content_by_accession[acc - s.accession_base]? with
    | some (some key) =>
        match alookup s.content_tab key with
        | some c => if c.accession = acc then some c else none
        | none => none
    | _ => none
  else none

/-- Update the content entry stored under `key`. -/
def content_update (s : Ccnd) (key : List Nat)
    (f : ContentEntry → ContentEntry) : Ccnd :=
  match alookup s.content_tab key with
  | some c => { s with content_tab := aupdate s.content_tab key (f c) }
  | none => s

/-- Maximum skiplist depth (ccnd.c:299). -/
def CCN_SKIPLIST_MAX_DEPTH : Nat := 30

/-- The depth loop of `content_skiplist_insert` (ccnd.c:307-308): starting
at `d = 1`, draw `nrand48(h->seed) & 3` while `d <
CCN_SKIPLIST_MAX_DEPTH - 1`; a nonzero draw stops the loop, a zero draw
increments `d`.  Returns the depth and the next random-stream index. -/
def chooseDepthAux (rand : Nat → Nat) (idx d : Nat) : Nat × Nat :=
  if h : d < CCN_SKIPLIST_MAX_DEPTH - 1 then
    if rand idx &&& 3 ≠ 0 then (d, idx + 1)
    else chooseDepthAux rand (idx + 1) (d + 1)
  else (d, idx)
termination_by CCN_SKIPLIST_MAX_DEPTH - 1 - d
decreasing_by omega

/-- Position in the skiplist link graph: the head vector or an entry. -/
inductive SkipLoc where
  | head : SkipLoc
  | entry : Nat → SkipLoc
deriving DecidableEq

/-- The link vector stored at a location. -/
def locLinks (s : Ccnd) : SkipLoc → List Nat
  | SkipLoc.head => s.skiplinks
  | SkipLoc.entry a =>
    match content_from_accession s a with
    | some c => c.skiplinks.getD []
    | none => []

/-- Inner loop of `content_skiplist_findbefore` (ccnd.c:281-293) at level
`i`: follow level-`i` links while the linked content's name compares
strictly less than the key.  `fuel` bounds the walk (the C code relies on
the store being acyclic and aborts on dangling links). -/
def skipScan (cmp : List Nat → List Nat → Ordering) (s : Ccnd)
    (key : List Nat) (i : Nat) : Nat → SkipLoc → SkipLoc
  | 0, c => c
  | fuel + 1, c =>
    if (locLinks s c).getD i 0 = 0 then c
    else
      match content_from_accession s ((locLinks s c).getD i 0) with
      | none => c
      | some content =>
          if cmp content.key key = Ordering.lt then
            skipScan cmp s key i fuel (SkipLoc.entry ((locLinks s c).getD i 0))
          else c

/-- Levels `0 .. i-1` of `content_skiplist_findbefore`, processed from the
top down, each continuing from the predecessor found one level up; the
returned list holds the level-`l` predecessor at position `l`. -/
def findbeforeLevels (cmp : List Nat → List Nat → Ordering) (s : Ccnd)
    (key : List Nat) (fuel : Nat) : Nat → SkipLoc → List SkipLoc
  | 0, _ => []
  | i + 1, c =>
    findbeforeLevels cmp s key fuel i (skipScan cmp s key i fuel c) ++
      [skipScan cmp s key i fuel c]

/-- Translation of `content_skiplist_findbefore` (ccnd.c:270): returns the
head-vector level count together with the per-level predecessors. -/
def content_skiplist_findbefore (cmp : List Nat → List Nat → Ordering)
    (s : Ccnd) (key : List Nat) : Nat × List SkipLoc :=
  (s.skiplinks.length,
   findbeforeLevels cmp s key (s.content_tab.length + 1)
     s.skiplinks.length SkipLoc.head)

/-- Write link value `v` at level `l` of a location. -/
def writeLoc (s : Ccnd) (loc : SkipLoc) (l : Nat) (v : Nat) : Ccnd :=
  match loc with
  | SkipLoc.head => { s with skiplinks := s.skiplinks.set l v }
  | SkipLoc.entry a =>
    match content_from_accession s a with
    | some c =>
        content_update s c.key (fun c2 =>
          { c2 with skiplinks := some ((c2.skiplinks.getD []).set l v) })
    | none => s

/-- Link-splicing loop of `content_skiplist_insert` (ccnd.c:315-318): for
each level below `dlim`, remember the predecessor's level link and replace
it with the new entry's accession; returns the new entry's link vector. -/
def insertLoop (acc : Nat) (pred : List SkipLoc) (s : Ccnd) (l dlim : Nat) :
    Ccnd × List Nat :=
  if l < dlim then
    let loc := pred.getD l SkipLoc.head
    let old := (locLinks s loc).getD l 0
    let res := insertLoop acc pred (writeLoc s loc l acc) (l + 1) dlim
    (res.1, old :: res.2)
  else (s, [])
termination_by dlim - l
decreasing_by omega

/-- Translation of `content_skiplist_insert` (ccnd.c:300): choose the
random depth, grow the head vector to it, find the predecessors, cap the
depth at the head level count (inert, since the head was just grown), and
splice the entry in at every level below the depth.  The entry is
identified by its key; a missing entry or an already-linked entry (the
`abort()` case) leaves the state unchanged. -/
def skipInsertGrow (rand : Nat → Nat) (s : Ccnd) : Ccnd :=
  { s with
    skiplinks := s.skiplinks ++
      List.replicate ((chooseDepthAux rand s.randidx 1).1 -
        s.skiplinks.length) 0
    randidx := (chooseDepthAux rand s.randidx 1).2 }

/-- Body of `content_skiplist_insert` once the entry is known: grow the
head to the drawn depth, find the predecessors, cap the depth at the head
level count (`d = i` "just in case", inert because the head was grown
first), splice, and store the new link vector in the entry. -/
def skipInsertCore (cmp : List Nat → List Nat → Ordering)
    (rand : Nat → Nat) (s : Ccnd) (key : List Nat) (acc : Nat) : Ccnd :=
  let s1 := skipInsertGrow rand s
  let fb := content_skiplist_findbefore cmp s1 key
  let d := if fb.1 < (chooseDepthAux rand s.randidx 1).1 then fb.1
           else (chooseDepthAux rand s.randidx 1).1
  let res := insertLoop acc fb.2 s1 0 d
  content_update res.1 key (fun c2 => { c2 with skiplinks := some res.2 })

def content_skiplist_insert (cmp : List Nat → List Nat → Ordering)
    (rand : Nat → Nat) (s : Ccnd) (key : List Nat) : Ccnd :=
  match alookup s.content_tab key with
  | none => s
  | some content =>
    if content.skiplinks ≠ none then s
    else skipInsertCore cmp rand s key content.accession

/-- Number of consecutive draws with `rand & 3 == 0` (an event of
probability 1/4) before the first nonzero draw, capped at `cap`. -/
def geomRun (rand : Nat → Nat) (idx : Nat) : Nat → Nat
  | 0 => 0
  | cap + 1 =>
    if rand idx &&& 3 = 0 then 1 + geomRun rand (idx + 1) cap else 0

theorem geomRun_le (rand : Nat → Nat) : ∀ cap idx,
    geomRun rand idx cap ≤ cap := by
  intro cap
  induction cap with
  | zero => intro idx; simp [geomRun]
  | succ cap ih =>
    intro idx
    unfold geomRun
    split
    · have := ih (idx + 1)
      omega
    · omega

theorem chooseDepthAux_eq (rand : Nat → Nat) : ∀ (cap idx d : Nat),
    d + cap = CCN_SKIPLIST_MAX_DEPTH - 1 →
    (chooseDepthAux rand idx d).1 = d + geomRun rand idx cap := by
  intro cap
  induction cap with
  | zero =>
    intro idx d hd
    rw [chooseDepthAux, dif_neg (by omega)]
    simp [geomRun]
  | succ cap ih =>
    intro idx d hd
    rw [chooseDepthAux, dif_pos (by omega)]
    by_cases hr : rand idx &&& 3 = 0
    · rw [if_neg (by simpa using hr)]
      rw [ih (idx + 1) (d + 1) (by omega)]
      simp only [geomRun]
      rw [if_pos hr]
      omega
    · rw [if_pos (by simpa using hr)]
      simp only [geomRun]
      rw [if_neg hr]
      simp

theorem alookup_aupdate_self {α : Type} : ∀ (tab : List (List Nat × α))
    (key : List Nat) (v : α), alookup (aupdate tab key v) key = some v := by
  intro tab
  induction tab with
  | nil => intro key v; simp [aupdate, alookup]
  | cons kv rest ih =>
    intro key v
    unfold aupdate
    split
    · simp [alookup]
    · rename_i hne
      unfold alookup
      rw [List.find?_cons_of_neg _ (by simpa using hne)]
      exact ih key v

theorem alookup_aupdate_isSome {α : Type} : ∀ (tab : List (List Nat × α))
    (key k2 : List Nat) (v : α),
    (alookup (aupdate tab key v) k2).isSome =
      (alookup tab k2).isSome ∨ k2 = key := by
  intro tab
  induction tab with
  | nil =>
    intro key k2 v
    by_cases h : k2 = key
    · exact Or.inr h
    · refine Or.inl ?_
      unfold aupdate alookup
      rw [List.find?_cons_of_neg _ (by simpa using fun h2 => h h2.symm)]
  | cons kv rest ih =>
    intro key k2 v
    unfold aupdate
    split
    · rename_i heq
      by_cases h : k2 = key
      · exact Or.inr h
      · refine Or.inl ?_
        unfold alookup
        rw [List.find?_cons_of_neg _ (by simpa using fun h2 => h h2.symm),
          List.find?_cons_of_neg _ (by simp [heq]; exact fun h2 => h h2.symm)]
    · rename_i hne
      by_cases h : kv.1 = k2
      · refine Or.inl ?_
        unfold alookup
        rw [List.find?_cons_of_pos _ (by simpa using h),
          List.find?_cons_of_pos _ (by simpa using h)]
      · rcases ih key k2 v with h2 | h2
        · refine Or.inl ?_
          unfold alookup
          rw [List.find?_cons_of_neg _ (by simpa using h),
            List.find?_cons_of_neg _ (by simpa using h)]
          exact h2
        · exact Or.inr h2

theorem content_update_skiplinks (s : Ccnd) (key : List Nat)
    (f : ContentEntry → ContentEntry) :
    (content_update s key f).skiplinks = s.skiplinks := by
  unfold content_update
  cases alookup s.content_tab key <;> rfl

theorem content_update_keeps {s : Ccnd} {key k2 : List Nat}
    (f : ContentEntry → ContentEntry)
    (h : (alookup s.content_tab k2).isSome = true) :
    (alookup (content_update s key f).content_tab k2).isSome = true := by
  unfold content_update
  cases hc : alookup s.content_tab key with
  | none => exact h
  | some c =>
    rcases alookup_aupdate_isSome s.content_tab key k2 (f c) with h2 | h2
    · rw [h2]
      exact h
    · subst h2
      rw [alookup_aupdate_self]
      rfl

theorem writeLoc_skiplinks_len (s : Ccnd) (loc : SkipLoc) (l v : Nat) :
    (writeLoc s loc l v).skiplinks.length = s.skiplinks.length := by
  cases loc with
  | head => simp [writeLoc]
  | entry a =>
    unfold writeLoc
    dsimp only
    cases hc : content_from_accession s a with
    | none => rfl
    | some c =>
      dsimp only
      rw [content_update_skiplinks]

theorem writeLoc_keeps {s : Ccnd} (loc : SkipLoc) (l v : Nat)
    {k2 : List Nat} (h : (alookup s.content_tab k2).isSome = true) :
    (alookup (writeLoc s loc l v).content_tab k2).isSome = true := by
  cases loc with
  | head => exact h
  | entry a =>
    unfold writeLoc
    dsimp only
    cases hc : content_from_accession s a with
    | none => exact h
    | some c =>
      dsimp only
      exact content_update_keeps _ h

theorem insertLoop_skiplinks_len (acc : Nat) (pred : List SkipLoc) :
    ∀ (k l dlim : Nat) (s : Ccnd), dlim - l ≤ k →
    (insertLoop acc pred s l dlim).1.skiplinks.length =
      s.skiplinks.length := by
  intro k
  induction k with
  | zero =>
    intro l dlim s hk
    rw [insertLoop, if_neg (by omega)]
  | succ k ih =>
    intro l dlim s hk
    by_cases hl : l < dlim
    · rw [insertLoop, if_pos hl]
      rw [ih (l + 1) dlim _ (by omega), writeLoc_skiplinks_len]
    · rw [insertLoop, if_neg hl]

theorem insertLoop_links_len (acc : Nat) (pred : List SkipLoc) :
    ∀ (k l dlim : Nat) (s : Ccnd), dlim - l ≤ k →
    (insertLoop acc pred s l dlim).2.length = dlim - l := by
  intro k
  induction k with
  | zero =>
    intro l dlim s hk
    rw [insertLoop, if_neg (by omega)]
    simp
    omega
  | succ k ih =>
    intro l dlim s hk
    by_cases hl : l < dlim
    · rw [insertLoop, if_pos hl]
      simp only [List.length_cons]
      rw [ih (l + 1) dlim _ (by omega)]
      omega
    · rw [insertLoop, if_neg hl]
      simp
      omega

theorem insertLoop_keeps (acc : Nat) (pred : List SkipLoc) :
    ∀ (k l dlim : Nat) (s : Ccnd) (k2 : List Nat),
    dlim - l ≤ k → (alookup s.content_tab k2).isSome = true →
    (alookup (insertLoop acc pred s l dlim).1.content_tab k2).isSome =
      true := by
  intro k
  induction k with
  | zero =>
    intro l dlim s k2 hk h
    rw [insertLoop, if_neg (by omega)]
    exact h
  | succ k ih =>
    intro l dlim s k2 hk h
    by_cases hl : l < dlim
    · rw [insertLoop, if_pos hl]
      exact ih (l + 1) dlim _ k2 (by omega) (writeLoc_keeps _ _ _ h)
    · rw [insertLoop, if_neg hl]
      exact h

theorem skipInsertGrow_len (rand : Nat → Nat) (s : Ccnd) :
    (skipInsertGrow rand s).skiplinks.length =
      max s.skiplinks.length (chooseDepthAux rand s.randidx 1).1 := by
  simp only [skipInsertGrow, List.length_append, List.length_replicate]
  omega

theorem skipInsertCore_eq (cmp : List Nat → List Nat → Ordering)
    (rand : Nat → Nat) (s : Ccnd) (key : List Nat) (acc : Nat) :
    skipInsertCore cmp rand s key acc =
      content_update (insertLoop acc
          (content_skiplist_findbefore cmp (skipInsertGrow rand s) key).2
          (skipInsertGrow rand s) 0 (chooseDepthAux rand s.randidx 1).1).1
        key (fun c2 => { c2 with skiplinks := some (insertLoop acc
          (content_skiplist_findbefore cmp (skipInsertGrow rand s) key).2
          (skipInsertGrow rand s) 0
          (chooseDepthAux rand s.randidx 1).1).2 }) := by
  unfold skipInsertCore
  dsimp only
  rw [if_neg ?_]
  case _ =>
    have h1 : (content_skiplist_findbefore cmp (skipInsertGrow rand s)
        key).1 = (skipInsertGrow rand s).skiplinks.length := rfl
    rw [h1, skipInsertGrow_len]
    exact Nat.not_lt.mpr (le_max_right _ _)

/-- C4: for every insertion of an unlinked stored entry and every random
stream, the chosen skiplist depth is `1 + geomRun rand idx 28`, where
`geomRun` counts the consecutive draws with `rand & 3 == 0` (an event of
probability 1/4, not 3/4) before the first nonzero draw; the depth lies in
`[1, CCN_SKIPLIST_MAX_DEPTH - 1]`; the head grows to
`max (old length) depth` in one insertion (so it can grow many levels at
once: the `d = i` cap is applied only after the head has already been
grown); and the entry ends up with a link vector of exactly that depth. -/
theorem c4_skiplist_depth (cmp : List Nat → List Nat → Ordering)
    (rand : Nat → Nat) (s : Ccnd) (key : List Nat) (content : ContentEntry)
    (hc : alookup s.content_tab key = some content)
    (hnl : content.skiplinks = none) :
    (chooseDepthAux rand s.randidx 1).1 = 1 + geomRun rand s.randidx 28 ∧
    1 ≤ (chooseDepthAux rand s.randidx 1).1 ∧
    (chooseDepthAux rand s.randidx 1).1 ≤ CCN_SKIPLIST_MAX_DEPTH - 1 ∧
    (content_skiplist_insert cmp rand s key).skiplinks.length =
      max s.skiplinks.length (chooseDepthAux rand s.randidx 1).1 ∧
    ∃ (c2 : ContentEntry) (links : List Nat),
      alookup (content_skiplist_insert cmp rand s key).content_tab key =
        some c2 ∧ c2.skiplinks = some links ∧
      links.length = (chooseDepthAux rand s.randidx 1).1 := by
  have hdep : (chooseDepthAux rand s.randidx 1).1 =
      1 + geomRun rand s.randidx 28 :=
    chooseDepthAux_eq rand 28 s.randidx 1 (by decide)
  have hge := geomRun_le rand 28 s.randidx
  have hins : content_skiplist_insert cmp rand s key =
      skipInsertCore cmp rand s key content.accession := by
    unfold content_skiplist_insert
    rw [hc]
    dsimp only
    rw [if_neg (by simp [hnl])]
  have hsome1 : (alookup (skipInsertGrow rand s).content_tab key).isSome =
      true := by
    have h : (skipInsertGrow rand s).content_tab = s.content_tab := rfl
    rw [h, hc]
    rfl
  have hsome2 := insertLoop_keeps content.accession
    (content_skiplist_findbefore cmp (skipInsertGrow rand s) key).2
    (chooseDepthAux rand s.randidx 1).1 0
    (chooseDepthAux rand s.randidx 1).1 (skipInsertGrow rand s) key
    (by omega) hsome1
  obtain ⟨c0, hc0⟩ := Option.isSome_iff_exists.mp hsome2
  refine ⟨hdep, by omega, by simp only [CCN_SKIPLIST_MAX_DEPTH]; omega,
    ?_, ?_⟩
  · rw [hins, skipInsertCore_eq, content_update_skiplinks,
      insertLoop_skiplinks_len content.accession _
        (chooseDepthAux rand s.randidx 1).1 0
        (chooseDepthAux rand s.randidx 1).1 _ (by omega),
      skipInsertGrow_len]
  · refine ⟨{ c0 with skiplinks := some (insertLoop content.accession
        (content_skiplist_findbefore cmp (skipInsertGrow rand s) key).2
        (skipInsertGrow rand s) 0
        (chooseDepthAux rand s.randidx 1).1).2 },
      (insertLoop content.accession
        (content_skiplist_findbefore cmp (skipInsertGrow rand s) key).2
        (skipInsertGrow rand s) 0
        (chooseDepthAux rand s.randidx 1).1).2, ?_, rfl, ?_⟩
    · rw [hins, skipInsertCore_eq]
      unfold content_update
      rw [hc0]
      dsimp only
      exact alookup_aupdate_self _ _ _
    · rw [insertLoop_links_len content.accession _
        (chooseDepthAux rand s.randidx 1).1 0
        (chooseDepthAux rand s.randidx 1).1 _ (by omega)]
      omega

/-- A one-entry store for exercising the skiplist insertion. -/
def c4WC : ContentEntry :=
  ⟨1, [1], [], 0, [], 0, none, 0, 0, false, none, false⟩

def c4W : Ccnd :=
  ⟨initFaceTab, [], 2, 1, [some [1]], [([1], c4WC)], [], [], 0, 0, 0, 0,
   0, 0, [], [], false⟩

theorem c4_witness :
    alookup c4W.content_tab [1] = some c4WC ∧ c4WC.skiplinks = none ∧
    ((chooseDepthAux (fun _ => 1) c4W.randidx 1).1 =
        1 + geomRun (fun _ => 1) c4W.randidx 28 ∧
      1 ≤ (chooseDepthAux (fun _ => 1) c4W.randidx 1).1 ∧
      (chooseDepthAux (fun _ => 1) c4W.randidx 1).1 ≤
        CCN_SKIPLIST_MAX_DEPTH - 1 ∧
      (content_skiplist_insert (fun _ _ => Ordering.gt) (fun _ => 1) c4W
          [1]).skiplinks.length =
        max c4W.skiplinks.length
          (chooseDepthAux (fun _ => 1) c4W.randidx 1).1 ∧
      ∃ (c2 : ContentEntry) (links : List Nat),
        alookup (content_skiplist_insert (fun _ _ => Ordering.gt)
            (fun _ => 1) c4W [1]).content_tab [1] = some c2 ∧
        c2.skiplinks = some links ∧
        links.length = (chooseDepthAux (fun _ => 1) c4W.randidx 1).1) :=
  ⟨by decide, rfl, c4_skiplist_depth (fun _ _ => Ordering.gt) (fun _ => 1)
    c4W [1] c4WC (by decide) rfl⟩

/-- C4 divergences: a random stream whose draws all have nonzero low bits
(the probability-3/4 event) stops the depth loop at once, giving depth 1
rather than continuing to the cap; and a stream of zero draws makes a
length-0 head grow to 29 levels in a single insertion, not at most one. -/
theorem c4_counterexample :
    (chooseDepthAux (fun _ => 1) 0 1).1 = 1 ∧
    (chooseDepthAux (fun _ => 0) 0 1).1 = CCN_SKIPLIST_MAX_DEPTH - 1 ∧
    c4W.skiplinks.length = 0 ∧
    (content_skiplist_insert (fun _ _ => Ordering.gt) (fun _ => 0) c4W
        [1]).skiplinks.length = 29 ∧
    ¬ (29 ≤ c4W.skiplinks.length + 1) := by
  have hch : (chooseDepthAux (fun _ => 0) 0 1).1 = 29 := by
    rw [chooseDepthAux_eq (fun _ => 0) 28 0 1 (by decide)]
    decide
  refine ⟨?_, ?_, rfl, ?_, by decide⟩
  · rw [chooseDepthAux_eq (fun _ => 1) 28 0 1 (by decide)]
    decide
  · rw [hch]
    decide
  · have h1 : content_skiplist_insert (fun _ _ => Ordering.gt)
        (fun _ => 0) c4W [1] =
        skipInsertCore (fun _ _ => Ordering.gt) (fun _ => 0) c4W [1] 1 := by
      unfold content_skiplist_insert
      rw [show alookup c4W.content_tab [1] = some c4WC from by decide]
      dsimp only
      rw [if_neg (by decide)]
      rfl
    rw [h1, skipInsertCore_eq, content_update_skiplinks,
      insertLoop_skiplinks_len 1 _
        (chooseDepthAux (fun _ => 0) c4W.randidx 1).1 0
        (chooseDepthAux (fun _ => 0) c4W.randidx 1).1 _ (by omega),
      skipInsertGrow_len]
    have h2 : c4W.randidx = 0 := rfl
    rw [h2, hch]
    decide

/-- The while loop of `content_sender` (ccnd.c:600-610): starting at
`nface_done`, step past dead faces; at the first live face, send and stop
with `nface_done` advanced past it; with no live face left, stop at the
end with nothing sent.  Returns the new `nface_done` and the face sent
to, if any. -/
def senderLoop (alive : Nat → Bool) (faces : List Nat) (nd : Nat) :
    Nat × Option Nat :=
  if h : nd < faces.length then
    if alive faces[nd] then (nd + 1, some faces[nd])
    else senderLoop alive faces (nd + 1)
  else (nd, none)
termination_by faces.length - nd
decreasing_by omega

/-- One scheduler run of `content_sender` (ccnd.c:581): on cancel or a
missing face set the sender event is dropped; otherwise run the send loop,
keeping the event exactly when something was sent and undone faces remain.
(The stale-entry guard `content != content_from_accession(h, ...)` returns
without touching the entry, i.e. behaves as no run at all.) -/
def content_sender (alive : Nat → Bool) (cancel : Bool)
    (c : ContentEntry) : ContentEntry × Option Nat :=
  match c.faces with
  | none => ({ c with sender := false }, none)
  | some faces =>
    if cancel then ({ c with sender := false }, none)
    else
      let r := senderLoop alive faces c.nface_done
      ({ c with
          nface_done := r.1
          sender := r.2.isSome && decide (r.1 < faces.length) }, r.2)

/-- The face ids sent to over `k` consecutive (non-cancelled) runs of
`content_sender` on one entry, with no interleaved mutation (one arrival
burst). A run that sends nothing clears the sender event, so no further
runs happen. -/
def senderRuns (alive : Nat → Bool) : Nat → ContentEntry → List Nat
  | 0, _ => []
  | k + 1, c =>
    match content_sender alive false c with
    | (c2, some f) => f :: senderRuns alive k c2
    | (_, none) => []

theorem senderLoop_none (alive : Nat → Bool) (faces : List Nat) :
    ∀ (k nd : Nat), faces.length - nd ≤ k → nd ≤ faces.length →
    (faces.drop nd).filter alive = [] →
    senderLoop alive faces nd = (faces.length, none) := by
  intro k
  induction k with
  | zero =>
    intro nd hk hnd hfil
    rw [senderLoop, dif_neg (by omega)]
    have : nd = faces.length := by omega
    rw [this]
  | succ k ih =>
    intro nd hk hnd hfil
    by_cases h : nd < faces.length
    · rw [List.drop_eq_getElem_cons h, List.filter_cons] at hfil
      rw [senderLoop, dif_pos h]
      cases ha : alive faces[nd] with
      | true => rw [ha] at hfil; simp at hfil
      | false =>
        rw [ha] at hfil
        simp only [Bool.false_eq_true, if_false] at hfil
        rw [if_neg (by simp [ha])]
        exact ih (nd + 1) (by omega) (by omega) hfil
    · rw [senderLoop, dif_neg h]
      have : nd = faces.length := by omega
      rw [this]

theorem senderLoop_some (alive : Nat → Bool) (faces : List Nat) :
    ∀ (k nd : Nat) (f : Nat) (rest : List Nat), faces.length - nd ≤ k →
    (faces.drop nd).filter alive = f :: rest →
    ∃ pos, nd ≤ pos ∧ pos < faces.length ∧ faces[pos]? = some f ∧
      alive f = true ∧ senderLoop alive faces nd = (pos + 1, some f) ∧
      (faces.drop (pos + 1)).filter alive = rest := by
  intro k
  induction k with
  | zero =>
    intro nd f rest hk hfil
    rw [List.drop_eq_nil_of_le (by omega)] at hfil
    simp at hfil
  | succ k ih =>
    intro nd f rest hk hfil
    by_cases h : nd < faces.length
    · rw [List.drop_eq_getElem_cons h, List.filter_cons] at hfil
      cases ha : alive faces[nd] with
      | true =>
        rw [ha] at hfil
        simp only [if_true] at hfil
        obtain ⟨hf1, hf2⟩ := List.cons.inj hfil
        refine ⟨nd, le_refl nd, h, ?_, ?_, ?_, ?_⟩
        · rw [List.getElem?_eq_getElem h, hf1]
        · rw [← hf1]; exact ha
        · rw [senderLoop, dif_pos h, if_pos (by simp [ha]), hf1]
        · exact hf2
      | false =>
        rw [ha] at hfil
        simp only [Bool.false_eq_true, if_false] at hfil
        obtain ⟨pos, h1, h2, h3, h4, h5, h6⟩ :=
          ih (nd + 1) f rest (by omega) hfil
        refine ⟨pos, by omega, h2, h3, h4, ?_, h6⟩
        rw [senderLoop, dif_pos h, if_neg (by simp [ha])]
        exact h5
    · rw [List.drop_eq_nil_of_le (by omega)] at hfil
      simp at hfil

theorem senderLoop_mono (alive : Nat → Bool) (faces : List Nat) :
    ∀ (k nd : Nat), faces.length - nd ≤ k →
    nd ≤ (senderLoop alive faces nd).1 := by
  intro k
  induction k with
  | zero =>
    intro nd hk
    rw [senderLoop, dif_neg (by omega)]
  | succ k ih =>
    intro nd hk
    by_cases h : nd < faces.length
    · rw [senderLoop, dif_pos h]
      by_cases ha : alive faces[nd] = true
      · rw [if_pos ha]
        exact Nat.le_succ nd
      · rw [if_neg ha]
        have := ih (nd + 1) (by omega)
        omega
    · rw [senderLoop, dif_neg h]

theorem senderRuns_eq (alive : Nat → Bool) :
    ∀ (k : Nat) (c : ContentEntry) (faces : List Nat),
    c.faces = some faces → c.nface_done ≤ faces.length →
    senderRuns alive k c =
      ((faces.drop c.nface_done).filter alive).take k := by
  intro k
  induction k with
  | zero => intro c faces hf hnd; rfl
  | succ k ih =>
    intro c faces hf hnd
    rw [senderRuns]
    unfold content_sender
    rw [hf]
    dsimp only
    rw [if_neg (by simp)]
    cases hfil : (faces.drop c.nface_done).filter alive with
    | nil =>
      rw [senderLoop_none alive faces faces.length c.nface_done
        (by omega) hnd hfil]
      simp
    | cons f rest =>
      obtain ⟨pos, h1, h2, h3, h4, h5, h6⟩ :=
        senderLoop_some alive faces faces.length c.nface_done f rest
          (by omega) hfil
      rw [h5]
      dsimp only
      rw [List.take_succ_cons]
      congr 1
      refine Eq.trans (ih _ faces rfl ?_) ?_
      · show pos + 1 ≤ faces.length
        omega
      · show ((faces.drop (pos + 1)).filter alive).take k = rest.take k
        rw [h6]

/-- C9: over any number of consecutive `content_sender` runs on one entry
within one arrival burst (no interleaved mutation of the entry), the face
ids sent to are exactly the live faces of the pending partition in order
(`take k` of the alive-filter of `faces` dropped at `nface_done`), so
positions already inside `[0, nface_done)` are never revisited; with set
semantics on `faces` (no duplicates, as `indexbuf_unordered_set_insert`
maintains) each face id is sent at most once; `nface_done` never
decreases; and a face that is sent has its position moved into the done
partition. -/
theorem c9_sender_once (alive : Nat → Bool) (c : ContentEntry)
    (faces : List Nat) (k f : Nat)
    (hf : c.faces = some faces) (hnd : c.nface_done ≤ faces.length) :
    senderRuns alive k c =
      ((faces.drop c.nface_done).filter alive).take k ∧
    (faces.Nodup → (senderRuns alive k c).count f ≤ 1) ∧
    c.nface_done ≤ (content_sender alive false c).1.nface_done ∧
    (∀ g, (content_sender alive false c).2 = some g →
      ∃ pos, c.nface_done ≤ pos ∧ pos < faces.length ∧
        faces[pos]? = some g ∧ alive g = true ∧
        (content_sender alive false c).1.nface_done = pos + 1) := by
  have heq := senderRuns_eq alive k c faces hf hnd
  refine ⟨heq, ?_, ?_, ?_⟩
  · intro hnodup
    rw [heq]
    calc (((faces.drop c.nface_done).filter alive).take k).count f
        ≤ faces.count f := List.Sublist.count_le
          (((List.take_sublist _ _).trans
            (List.filter_sublist _)).trans (List.drop_sublist _ _)) f
      _ ≤ 1 := List.nodup_iff_count_le_one.mp hnodup f
  · unfold content_sender
    rw [hf]
    dsimp only
    rw [if_neg (by simp)]
    exact senderLoop_mono alive faces faces.length c.nface_done (by omega)
  · intro g hg
    unfold content_sender at hg ⊢
    rw [hf] at hg ⊢
    dsimp only at hg ⊢
    rw [if_neg (by simp)] at hg ⊢
    have hg2 : (senderLoop alive faces c.nface_done).2 = some g := hg
    cases hfil : (faces.drop c.nface_done).filter alive with
    | nil =>
      rw [senderLoop_none alive faces faces.length c.nface_done
        (by omega) hnd hfil] at hg2
      simp at hg2
    | cons f0 rest =>
      obtain ⟨pos, h1, h2, h3, h4, h5, h6⟩ :=
        senderLoop_some alive faces faces.length c.nface_done f0 rest
          (by omega) hfil
      rw [h5] at hg2
      have hfg : f0 = g := Option.some.inj hg2
      refine ⟨pos, h1, h2, ?_, ?_, ?_⟩
      · rw [← hfg]; exact h3
      · rw [← hfg]; exact h4
      · show (senderLoop alive faces c.nface_done).1 = pos + 1
        rw [h5]

/-- A content entry with two pending faces for exercising the sender. -/
def c9C : ContentEntry :=
  ⟨1, [1], [], 0, [], 0, some [5, 6], 0, 0, false, none, false⟩

theorem c9_witness :
    c9C.faces = some [5, 6] ∧ c9C.nface_done ≤ [5, 6].length ∧
    (senderRuns (fun fid => decide (fid = 6)) 3 c9C =
        (([5, 6].drop c9C.nface_done).filter
          (fun fid => decide (fid = 6))).take 3 ∧
      ([5, 6].Nodup →
        (senderRuns (fun fid => decide (fid = 6)) 3 c9C).count 6 ≤ 1) ∧
      c9C.nface_done ≤
        (content_sender (fun fid => decide (fid = 6)) false
          c9C).1.nface_done ∧
      (∀ g, (content_sender (fun fid => decide (fid = 6)) false c9C).2 =
          some g →
        ∃ pos, c9C.nface_done ≤ pos ∧ pos < [5, 6].length ∧
          [5, 6][pos]? = some g ∧
          (fun fid => decide (fid = 6)) g = true ∧
          (content_sender (fun fid => decide (fid = 6)) false
            c9C).1.nface_done = pos + 1)) :=
  ⟨rfl, by decide,
    c9_sender_once (fun fid => decide (fid = 6)) c9C [5, 6] 3 6 rfl
      (by decide)⟩

/-- Translation of `is_duplicate_flooded` (ccnd.c:1188): an empty nonce is
never a duplicate; otherwise look the nonce bytes up in the propagating
table. -/
def is_duplicate_flooded (s : Ccnd) (msg : List Nat)
    (pi : ParsedInterest) : Bool :=
  if pi.nonceE - pi.nonceB = 0 then false
  else (alookup s.propagating_tab
    (byteRange msg pi.nonceB (pi.nonceE - pi.nonceB))).isSome

/-- Translation of `indexbuf_remove_element` (ccnd.c:1063): find the
highest index holding `val`, move the last element into that spot and
shrink by one. -/
def indexbuf_remove_element (x : List Nat) (val : Nat) : List Nat :=
  match (List.range x.length).reverse.find?
      (fun i => decide (x.getD i 0 = val)) with
  | none => x
  | some i => (x.set i (x.getD (x.length - 1) 0)).take (x.length - 1)

/-- `link_propagating_interest_to_interest_entry` (ccnd.c:448): hang the
new propagating interest (by its nonce key) off the prefix entry's ring. -/
def link_propagating (tab : List (List Nat × IpeEntry))
    (ipe_key pkey : List Nat) : List (List Nat × IpeEntry) :=
  match alookup tab ipe_key with
  | some ipe => aupdate tab ipe_key
      { ipe with propagating := ipe.propagating ++ [pkey] }
  | none => tab

/-- Translation of `propagate_interest` (ccnd.c:1105).  With an empty
outbound set, return 0 at once, leaving the state untouched.  Otherwise,
when the interest has no nonce, synthesize one from six random draws
(byte `i` is `nrand48 >> i`, wrapped into a Nonce element by the ccn
codec, modelled by `nonceEnc`) and splice it into the message before the
OTHER section; a present nonce is used as-is.  Seek the nonce in the
propagating table: a new entry stores the outgoing message, ingress face
and outbound set, links itself to the prefix entry, and schedules
`do_propagate` (logged as kind 0) after `nrand48 % 8192` microseconds; an
existing entry means the interest was seen already, so only the ingress
face is removed from that entry's outbound set and -1 is returned. -/
def propagate_interest (rand : Nat → Nat)
    (nonceEnc : List Nat → List Nat) (s : Ccnd) (face : Face)
    (msg : List Nat) (pi : ParsedInterest) (ipe_key : List Nat) :
    Ccnd × Int :=
  let outbound := get_outbound_faces s.facetab face msg pi
  if outbound.length = 0 then (s, 0)
  else
    let noNonce := pi.nonceB = pi.nonceE
    let pkey := if noNonce then
        nonceEnc ((List.range 6).map
          (fun i => rand (s.randidx + i) >>> i % 256))
      else byteRange msg pi.nonceB (pi.nonceE - pi.nonceB)
    let msg_out := if noNonce then
        msg.take pi.nonceB ++ pkey ++ msg.drop pi.otherB
      else msg
    let s1 := if noNonce then { s with randidx := s.randidx + 6 } else s
    match alookup s1.propagating_tab pkey with
    | none =>
      let pe : PropEntry :=
        ⟨some msg_out, msg_out.length, face.faceid, some outbound⟩
      ({ s1 with
          propagating_tab := aupdate s1.propagating_tab pkey pe
          interestprefix_tab :=
            link_propagating s1.interestprefix_tab ipe_key pkey
          sched := s1.sched ++ [(0, rand s1.randidx % 8192)]
          randidx := s1.randidx + 1 }, 0)
    | some pe =>
      let ob2 := pe.outbound.map
        (fun ob => indexbuf_remove_element ob face.faceid)
      let pe2 := { pe with outbound := ob2 }
      ({ s1 with
          propagating_tab := aupdate s1.propagating_tab pkey pe2 }, -1)

/-- Translation of `process_incoming_interest` (ccnd.c:1241), up to the
branch taken.  The parser (`ccn_parse_interest`, external codec) is the
parameter `parse`, returning the parsed interest and the component offsets
or `none` for a negative result; an oversize message is rejected before
parsing.  A scope-1 (or would-be scope-restricted) interest arriving on a
CCN_FACE_LINK face is discarded out of scope; then a duplicate flooded
nonce only bumps `interests_dropped`.  Everything after these guards (the
accepted path: prefix-entry bookkeeping, content matching and propagation)
is the continuation parameter `accept`, applied to the state, ingress
face, message, parse result and component offsets. -/
def process_incoming_interest
    (parse : List Nat → Option (ParsedInterest × List Nat))
    (accept : Ccnd → Face → List Nat → ParsedInterest → List Nat → Ccnd)
    (s : Ccnd) (face : Face) (msg : List Nat) : Ccnd :=
  if msg.length > 65535 then s
  else match parse msg with
  | none => s
  | some (pi, comps) =>
    if 0 < pi.scope ∧ pi.scope < 2 ∧ face.link = true then s
    else if is_duplicate_flooded s msg pi then
      { s with interests_dropped := s.interests_dropped + 1 }
    else accept s face msg pi comps

/-- C10: for an interest whose outbound face set is empty,
`propagate_interest` returns 0 with the daemon state (propagating table
included) completely unchanged: no propagating entry is created, no nonce
is synthesized (the random stream index is untouched), nothing is
scheduled; consequently duplicate recognition behaves afterwards exactly
as before, so a later interest carrying the same nonce is not recognized
as a duplicate. -/
theorem c10_no_outbound (rand : Nat → Nat)
    (nonceEnc : List Nat → List Nat) (s : Ccnd) (face : Face)
    (msg : List Nat) (pi : ParsedInterest) (ipe_key : List Nat)
    (h : get_outbound_faces s.facetab face msg pi = []) :
    propagate_interest rand nonceEnc s face msg pi ipe_key = (s, 0) ∧
    (propagate_interest rand nonceEnc s face msg pi
      ipe_key).1.propagating_tab = s.propagating_tab ∧
    (∀ (msg2 : List Nat) (pi2 : ParsedInterest),
      is_duplicate_flooded
        (propagate_interest rand nonceEnc s face msg pi ipe_key).1 msg2 pi2
      = is_duplicate_flooded s msg2 pi2) := by
  have h1 : propagate_interest rand nonceEnc s face msg pi ipe_key =
      (s, 0) := by
    unfold propagate_interest
    dsimp only
    rw [if_pos (show (get_outbound_faces s.facetab face msg pi).length = 0
      by rw [h]; rfl)]
  exact ⟨h1, by rw [h1], fun msg2 pi2 => by rw [h1]⟩

def c10Pi : ParsedInterest := ⟨2, 0, 1, 4, 6, 6, 6, 4, 8⟩

def c10F : Face := ⟨3, false, false, 0⟩

theorem c10_witness :
    get_outbound_faces c4W.facetab c10F [9] c10Pi = [] ∧
    (propagate_interest (fun _ => 0) id c4W c10F [9] c10Pi [] =
        (c4W, 0) ∧
      (propagate_interest (fun _ => 0) id c4W c10F [9] c10Pi
        []).1.propagating_tab = c4W.propagating_tab ∧
      (∀ (msg2 : List Nat) (pi2 : ParsedInterest),
        is_duplicate_flooded
          (propagate_interest (fun _ => 0) id c4W c10F [9] c10Pi []).1
          msg2 pi2 = is_duplicate_flooded c4W msg2 pi2)) :=
  ⟨by decide,
    c10_no_outbound (fun _ => 0) id c4W c10F [9] c10Pi [] (by decide)⟩

/-- C2 (amended): an interest that is not oversize, parses, and passes the
scope check, whose nonce is non-empty and already a key of the propagating
table, is dropped with `interests_dropped` bumped by exactly one and no
other state change: no outbound bytes, no new propagating entry, no
interest-prefix entry created or updated. -/
theorem c2_duplicate_nonce
    (parse : List Nat → Option (ParsedInterest × List Nat))
    (accept : Ccnd → Face → List Nat → ParsedInterest → List Nat → Ccnd)
    (s : Ccnd) (face : Face) (msg : List Nat) (pi : ParsedInterest)
    (comps : List Nat)
    (hsize : ¬ msg.length > 65535)
    (hp : parse msg = some (pi, comps))
    (hscope : ¬ (0 < pi.scope ∧ pi.scope < 2 ∧ face.link = true))
    (hdup : is_duplicate_flooded s msg pi = true) :
    process_incoming_interest parse accept s face msg =
      { s with interests_dropped := s.interests_dropped + 1 } ∧
    (process_incoming_interest parse accept s face msg).interests_dropped
      = s.interests_dropped + 1 ∧
    (process_incoming_interest parse accept s face msg).propagating_tab
      = s.propagating_tab ∧
    (process_incoming_interest parse accept s face msg).interestprefix_tab
      = s.interestprefix_tab ∧
    (process_incoming_interest parse accept s face msg).out = s.out := by
  have h1 : process_incoming_interest parse accept s face msg =
      { s with interests_dropped := s.interests_dropped + 1 } := by
    unfold process_incoming_interest
    rw [if_neg hsize, hp]
    dsimp only
    rw [if_neg hscope, if_pos hdup]
  exact ⟨h1, by rw [h1], by rw [h1], by rw [h1], by rw [h1]⟩

def c2Pi : ParsedInterest := ⟨1, 0, 1, 2, 4, 4, 4, 2, 6⟩

def c2Msg : List Nat := [0, 1, 2, 3, 4, 5]

/-- Ingress face carrying CCN_FACE_LINK, for the scope check. -/
def c2F : Face := ⟨0, true, false, 0⟩

def c2F2 : Face := ⟨0, false, false, 0⟩

/-- A state whose propagating table already holds the nonce bytes `[2, 3]`
of `c2Msg` under `c2Pi`. -/
def c2S : Ccnd :=
  ⟨initFaceTab, [], 0, 1, [], [], [],
   [([2, 3], ⟨some [0], 1, 9, none⟩)], 0, 0, 0, 0, 0, 0, [], [], false⟩

def c2parse : List Nat → Option (ParsedInterest × List Nat) :=
  fun m => if m = c2Msg then some (c2Pi, [0, 2]) else none

/-- C2 divergence: a duplicate-nonce interest arriving with scope 1 on a
link face is discarded by the scope check, which precedes the duplicate
test, so `interests_dropped` is not incremented. -/
theorem c2_counterexample :
    is_duplicate_flooded c2S c2Msg c2Pi = true ∧
    process_incoming_interest c2parse (fun st _ _ _ _ => st) c2S c2F
      c2Msg = c2S ∧
    (process_incoming_interest c2parse (fun st _ _ _ _ => st) c2S c2F
      c2Msg).interests_dropped ≠ c2S.interests_dropped + 1 := by
  refine ⟨by decide, by decide, by decide⟩

theorem c2_witness :
    ¬ c2Msg.length > 65535 ∧ c2parse c2Msg = some (c2Pi, [0, 2]) ∧
    is_duplicate_flooded c2S c2Msg c2Pi = true ∧
    (process_incoming_interest c2parse (fun st _ _ _ _ => st) c2S c2F2
        c2Msg =
      { c2S with interests_dropped := c2S.interests_dropped + 1 } ∧
    (process_incoming_interest c2parse (fun st _ _ _ _ => st) c2S c2F2
      c2Msg).interests_dropped = c2S.interests_dropped + 1 ∧
    (process_incoming_interest c2parse (fun st _ _ _ _ => st) c2S c2F2
      c2Msg).propagating_tab = c2S.propagating_tab ∧
    (process_incoming_interest c2parse (fun st _ _ _ _ => st) c2S c2F2
      c2Msg).interestprefix_tab = c2S.interestprefix_tab ∧
    (process_incoming_interest c2parse (fun st _ _ _ _ => st) c2S c2F2
      c2Msg).out = c2S.out) :=
  ⟨by decide, by decide, by decide,
    c2_duplicate_nonce c2parse (fun st _ _ _ _ => st) c2S c2F2 c2Msg c2Pi
      [0, 2] (by decide) (by decide) (by decide) (by decide)⟩

/-- Translation of `indexbuf_unordered_set_insert` (ccnd.c:619): the index
of the first occurrence, or append and return the old length. -/
def indexbuf_unordered_set_insert (x : List Nat) (val : Nat) :
    List Nat × Nat :=
  match (List.range x.length).find?
      (fun i => decide (x.getD i 0 = val)) with
  | some i => (x, i)
  | none => (x ++ [val], x.length)

/-- Translation of `content_faces_set_insert` (ccnd.c:633): create the
face set on first use (with `nface_done` reset to 0), then set-insert. -/
def content_faces_set_insert (c : ContentEntry) (faceid : Nat) :
    ContentEntry × Nat :=
  match c.faces with
  | none =>
    let r := indexbuf_unordered_set_insert [] faceid
    ({ c with faces := some r.1, nface_done := 0 }, r.2)
  | some buf =>
    let r := indexbuf_unordered_set_insert buf faceid
    ({ c with faces := some r.1 }, r.2)

/-- The duplicate-arrival bookkeeping of `process_incoming_content`
(ccnd.c:1445-1449): set-insert the arrival face; if its position is not
already inside the done partition, swap it with the entry at the
partition boundary and advance `nface_done` past it. -/
def content_dup_arrival (c : ContentEntry) (faceid : Nat) : ContentEntry :=
  let r := content_faces_set_insert c faceid
  if r.2 ≥ r.1.nface_done then
    match r.1.faces with
    | some buf =>
      { r.1 with
          faces := some ((buf.set r.2 (buf.getD r.1.nface_done 0)).set
            r.1.nface_done faceid)
          nface_done := r.1.nface_done + 1 }
    | none => r.1
  else r.1

/-- Translation of `cancel_one_propagating_interest` (ccnd.c:660): walk
the prefix entry's propagating ring oldest-first and finish the first
entry with the given ingress face (message freed, outbound destroyed,
unlinked from the ring; the hashtable entry lingers until reaped). -/
def cancel_one_propagating_interest (s : Ccnd) (ipe_key : List Nat)
    (faceid : Nat) : Ccnd :=
  match alookup s.interestprefix_tab ipe_key with
  | none => s
  | some ipe =>
    match ipe.propagating.find? (fun pk =>
      match alookup s.propagating_tab pk with
      | some pe => decide (pe.faceid = faceid)
      | none => false) with
    | none => s
    | some pk =>
      let ipe2 := { ipe with propagating := ipe.propagating.erase pk }
      let s1 := { s with
        interestprefix_tab := aupdate s.interestprefix_tab ipe_key ipe2 }
      match alookup s1.propagating_tab pk with
      | some pe =>
        let pe2 := { pe with interest_msg := none, outbound := none }
        { s1 with
          propagating_tab := aupdate s1.propagating_tab pk pe2 }
      | none => s1

/-- Write `counters[i] = v` in the prefix entry at `ipe_key`. -/
def setCounter (s : Ccnd) (ipe_key : List Nat) (i v : Nat) : Ccnd :=
  match alookup s.interestprefix_tab ipe_key with
  | some ipe =>
    let ipe2 := { ipe with counters := ipe.counters.set i v }
    { s with
      interestprefix_tab := aupdate s.interestprefix_tab ipe_key ipe2 }
  | none => s

/-- One iteration of the inner counter loop of `match_interests`
(ccnd.c:698-718): a positive count whose face is live inserts the face
into the content's face set; a position at or past the done partition
counts as a match, consumes one interest unit (clamped at zero) and
cancels one propagating interest; a dead face zeroes the count. -/
def miStep (s : Ccnd) (ipe_key : List Nat) (c : ContentEntry) (i nm : Nat) :
    Ccnd × ContentEntry × Nat :=
  match alookup s.interestprefix_tab ipe_key with
  | none => (s, c, nm)
  | some ipe =>
    let count := ipe.counters.getD i 0
    if 0 < count then
      let faceid := ipe.interested_faceid.getD i 0
      match face_from_faceid s.facetab faceid with
      | some _ =>
        let r := content_faces_set_insert c faceid
        if r.2 ≥ r.1.nface_done then
          let s1 := cancel_one_propagating_interest s ipe_key faceid
          (setCounter s1 ipe_key i (count - CCN_UNIT_INTEREST), r.1, nm + 1)
        else (setCounter s ipe_key i count, r.1, nm)
      | none => (setCounter s ipe_key i 0, c, nm)
    else (s, c, nm)

/-- The inner loop of `match_interests` over counter indices. -/
def miInner (ipe_key : List Nat) :
    Nat → Ccnd → ContentEntry → Nat → Nat → Ccnd × ContentEntry × Nat
  | 0, s, c, _, nm => (s, c, nm)
  | fuel + 1, s, c, i, nm =>
    let r := miStep s ipe_key c i nm
    miInner ipe_key fuel r.1 r.2.1 (i + 1) r.2.2

/-- The outer loop of `match_interests` (ccnd.c:693): for each prefix of
the content name, longest first, run the counter loop on the prefix entry
if there is one. -/
def miOuter : Nat → Ccnd → ContentEntry → Nat → Ccnd × ContentEntry × Nat
  | 0, s, c, nm => (s, c, nm)
  | ci + 1, s, c, nm =>
    let c0 := c.comps.getD 0 0
    let ipe_key := byteRange c.key c0 (c.comps.getD ci 0 - c0)
    match alookup s.interestprefix_tab ipe_key with
    | some ipe =>
      let r := miInner ipe_key ipe.counters.length s c 0 nm
      miOuter ci r.1 r.2.1 r.2.2
    | none => miOuter ci s c nm

/-- Translation of `schedule_content_delivery` (ccnd.c:644): with no
sender event pending and undone faces remaining, schedule `content_sender`
(logged as kind 1) after the face-appropriate delay. -/
def schedule_content_delivery (rand : Nat → Nat) (s : Ccnd)
    (key : List Nat) : Ccnd :=
  match alookup s.content_tab key with
  | none => s
  | some c =>
    match c.faces with
    | some buf =>
      if c.sender = false ∧ c.nface_done < buf.length then
        let d := choose_content_delay s.facetab (rand s.randidx)
          (buf.getD c.nface_done 0) c.slow
        let s1 := content_update s key (fun c2 => { c2 with sender := true })
        { s1 with
            sched := s1.sched ++ [(1, d)]
            randidx := s1.randidx + 1 }
      else s
    | none => s

/-- Translation of `match_interests` (ccnd.c:682): run the prefix loops on
the entry under `key`, write the mutated entry back, and schedule
delivery when anything matched.  Returns the match count as well. -/
def match_interests (rand : Nat → Nat) (s : Ccnd) (key : List Nat) :
    Ccnd × Nat :=
  match alookup s.content_tab key with
  | none => (s, 0)
  | some c =>
    let r := miOuter c.ncomps s c 0
    let s1 := content_update r.1 key (fun _ => r.2.1)
    if r.2.2 ≠ 0 then (schedule_content_delivery rand s1 key, r.2.2)
    else (s1, r.2.2)

/-- Translation of `enroll_content` (ccnd.c:222): when the accession falls
past the window, drop the leading empty slots, advance the base, and grow
the window to `(w + 20) * 3 / 2`; then store the entry (by key) in its
dense slot. -/
def enroll_content (s : Ccnd) (acc : Nat) (key : List Nat) : Ccnd :=
  let s1 :=
    if acc ≥ s.accession_base + s.content_by_accession.length then
      let new_window := (s.content_by_accession.length + 20) * 3 / 2
      let i := s.content_by_accession.findIdx (fun o => o.isSome)
      let kept := s.content_by_accession.drop i
      { s with
          accession_base := s.accession_base + i
          content_by_accession :=
            kept ++ List.replicate (new_window - kept.length) none }
    else s
  { s1 with content_by_accession :=
      s1.content_by_accession.set (acc - s1.accession_base) (some key) }

/-- Association-list removal modelling `hashtb_delete`. -/
def aremove {α : Type} (tab : List (List Nat × α)) (key : List Nat) :
    List (List Nat × α) :=
  match tab with
  | [] => []
  | kv :: rest => if kv.1 = key then rest else kv :: aremove rest key

/-- Link-unsplicing loop of `content_skiplist_remove` (ccnd.c:331-333):
restore each predecessor's level link to the removed entry's link. -/
def removeLoop (links : List Nat) (pred : List SkipLoc) (s : Ccnd)
    (l dlim : Nat) : Ccnd :=
  if l < dlim then
    removeLoop links pred
      (writeLoc s (pred.getD l SkipLoc.head) l (links.getD l 0)) (l + 1)
      dlim
  else s
termination_by dlim - l
decreasing_by omega

/-- Translation of `content_skiplist_remove` (ccnd.c:322): unsplice the
entry at every level up to the smaller of its depth and the head's, then
destroy its link vector. -/
def content_skiplist_remove (cmp : List Nat → List Nat → Ordering)
    (s : Ccnd) (key : List Nat) : Ccnd :=
  match alookup s.content_tab key with
  | none => s
  | some content =>
    match content.skiplinks with
    | none => s
    | some links =>
      let fb := content_skiplist_findbefore cmp s key
      let d := if links.length < fb.1 then links.length else fb.1
      let s2 := removeLoop links fb.2 s 0 d
      content_update s2 key (fun c2 => { c2 with skiplinks := none })

/-- Translation of `finalize_content` (ccnd.c:247): when the entry owns
its dense slot, unsplice it from the skiplist, cancel any sender event,
clear the slot, and release its face set. -/
def finalize_content (cmp : List Nat → List Nat → Ordering) (s : Ccnd)
    (key : List Nat) : Ccnd :=
  match alookup s.content_tab key with
  | none => s
  | some entry =>
    let i := entry.accession - s.accession_base
    if i < s.content_by_accession.length ∧
        s.content_by_accession.getD i none = some key then
      let s1 := content_skiplist_remove cmp s key
      let s2 := content_update s1 key
        (fun c2 => { c2 with sender := false, faces := none })
      { s2 with content_by_accession := s2.content_by_accession.set i none }
    else s

/-- Translation of `process_incoming_content` (ccnd.c:1380).  The parser
(`ccn_parse_ContentObject`, external codec) is the parameter `parseCo`,
returning the magic number, the offset of the Content section (which
splits the message into key bytes and tail bytes) and the name-component
offsets, or `none` for a negative result; `sigOff` models
`get_signature_offset` (also codec-driven).  A stored entry with the same
key bytes but different tail bytes is a name collision: both are
mercilessly thrown away.  Matching key and tail bytes is a duplicate:
count it and note that the arrival face knows this content.  Otherwise a
new entry is enrolled, spliced into the skiplist, and matched against
pending interests; with no match it is marked slow-send. -/
def process_incoming_content
    (parseCo : List Nat → Option (Nat × Nat × List Nat))
    (sigOff : List Nat → Nat) (cmp : List Nat → List Nat → Ordering)
    (rand : Nat → Nat) (s : Ccnd) (face : Face) (msg : List Nat) : Ccnd :=
  match parseCo msg with
  | none => s
  | some (_, contentB, comps) =>
    if comps.length < 1 ∨ comps.getD (comps.length - 1) 0 > 65535 then s
    else
      let key := msg.take contentB
      let tail := msg.drop contentB
      match alookup s.content_tab key with
      | some content =>
        if tail ≠ content.tail then
          let s1 := finalize_content cmp s key
          { s1 with content_tab := aremove s1.content_tab key }
        else
          let s1 :=
            { s with content_dups_recvd := s.content_dups_recvd + 1 }
          let s2 := content_update s1 key
            (fun c => content_dup_arrival c face.faceid)
          (match_interests rand s2 key).1
      | none =>
        let acc := s.accession + 1
        let entry : ContentEntry :=
          ⟨acc, key, tail, comps.length, comps, sigOff msg,
           some [face.faceid], 1, 0, false, none, false⟩
        let s1 := { s with
            accession := acc
            content_tab := aupdate s.content_tab key entry }
        let s2 := enroll_content s1 acc key
        let s3 := content_skiplist_insert cmp rand s2 key
        let r := match_interests rand s3 key
        if r.2 = 0 then
          content_update r.1 key (fun c => { c with slow := true })
        else r.1

theorem getD_set_self : ∀ (l : List Nat) (n a : Nat), n < l.length →
    (l.set n a).getD n 0 = a := by
  intro l
  induction l with
  | nil => intro n a h; simp at h
  | cons x xs ih =>
    intro n a h
    cases n with
    | zero => rfl
    | succ n => exact ih n a (by simpa using h)

theorem getD_append_left : ∀ (l e : List Nat) (j : Nat), j < l.length →
    (l ++ e).getD j 0 = l.getD j 0 := by
  intro l
  induction l with
  | nil => intro e j h; simp at h
  | cons x xs ih =>
    intro e j h
    cases j with
    | zero => rfl
    | succ j => exact ih e j (by simpa using h)

/-- The mutations `match_interests` may apply to a content entry: the
byte fields, accession and done boundary are untouched and the face set
only grows at the end. -/
def entryExt (c c2 : ContentEntry) : Prop :=
  c2.key = c.key ∧ c2.tail = c.tail ∧ c2.accession = c.accession ∧
  c2.nface_done = c.nface_done ∧
  ∀ b, c.faces = some b → ∃ e, c2.faces = some (b ++ e)

theorem entryExt_refl (c : ContentEntry) : entryExt c c :=
  ⟨rfl, rfl, rfl, rfl, fun b hb => ⟨[], by rw [hb]; simp⟩⟩

theorem entryExt_trans {a b c : ContentEntry} (h1 : entryExt a b)
    (h2 : entryExt b c) : entryExt a c := by
  obtain ⟨k1, t1, a1, n1, f1⟩ := h1
  obtain ⟨k2, t2, a2, n2, f2⟩ := h2
  refine ⟨k2.trans k1, t2.trans t1, a2.trans a1, n2.trans n1, ?_⟩
  intro b0 hb0
  obtain ⟨e1, he1⟩ := f1 b0 hb0
  obtain ⟨e2, he2⟩ := f2 (b0 ++ e1) he1
  exact ⟨e1 ++ e2, by rw [he2, List.append_assoc]⟩

theorem cfsi_ext (c : ContentEntry) (fid : Nat) (h : c.faces ≠ none) :
    entryExt c (content_faces_set_insert c fid).1 ∧
    (content_faces_set_insert c fid).1.faces ≠ none := by
  cases hf : c.faces with
  | none => exact absurd hf h
  | some buf =>
    unfold content_faces_set_insert
    rw [hf]
    dsimp only
    unfold indexbuf_unordered_set_insert
    cases hfind : (List.range buf.length).find?
        (fun i => decide (buf.getD i 0 = fid)) with
    | some i =>
      dsimp only
      refine ⟨⟨rfl, rfl, rfl, rfl, fun b hb => ⟨[], ?_⟩⟩, by simp⟩
      rw [hf] at hb
      injection hb with hb2
      rw [← hb2]
      simp
    | none =>
      dsimp only
      refine ⟨⟨rfl, rfl, rfl, rfl, fun b hb => ⟨[fid], ?_⟩⟩, by simp⟩
      rw [hf] at hb
      injection hb with hb2
      rw [← hb2]

theorem miStep_ext (s : Ccnd) (k : List Nat) (c : ContentEntry)
    (i nm : Nat) (h : c.faces ≠ none) :
    entryExt c (miStep s k c i nm).2.1 ∧
    (miStep s k c i nm).2.1.faces ≠ none := by
  unfold miStep
  cases h1 : alookup s.interestprefix_tab k with
  | none => exact ⟨entryExt_refl c, h⟩
  | some ipe =>
    dsimp only
    by_cases h2 : 0 < ipe.counters.getD i 0
    · rw [if_pos h2]
      cases h3 : face_from_faceid s.facetab
          (ipe.interested_faceid.getD i 0) with
      | none => exact ⟨entryExt_refl c, h⟩
      | some f =>
        dsimp only
        by_cases h4 : (content_faces_set_insert c
              (ipe.interested_faceid.getD i 0)).2 ≥
            (content_faces_set_insert c
              (ipe.interested_faceid.getD i 0)).1.nface_done
        · rw [if_pos h4]
          exact ⟨(cfsi_ext c _ h).1, (cfsi_ext c _ h).2⟩
        · rw [if_neg h4]
          exact ⟨(cfsi_ext c _ h).1, (cfsi_ext c _ h).2⟩
    · rw [if_neg h2]
      exact ⟨entryExt_refl c, h⟩

theorem miInner_ext (k : List Nat) : ∀ (fuel : Nat) (s : Ccnd)
    (c : ContentEntry) (i nm : Nat), c.faces ≠ none →
    entryExt c (miInner k fuel s c i nm).2.1 ∧
    (miInner k fuel s c i nm).2.1.faces ≠ none := by
  intro fuel
  induction fuel with
  | zero => intro s c i nm h; exact ⟨entryExt_refl c, h⟩
  | succ fuel ih =>
    intro s c i nm h
    have hs := miStep_ext s k c i nm h
    have hr := ih (miStep s k c i nm).1 (miStep s k c i nm).2.1 (i + 1)
      (miStep s k c i nm).2.2 hs.2
    exact ⟨entryExt_trans hs.1 hr.1, hr.2⟩

theorem miOuter_ext : ∀ (n : Nat) (s : Ccnd) (c : ContentEntry) (nm : Nat),
    c.faces ≠ none →
    entryExt c (miOuter n s c nm).2.1 ∧
    (miOuter n s c nm).2.1.faces ≠ none := by
  intro n
  induction n with
  | zero => intro s c nm h; exact ⟨entryExt_refl c, h⟩
  | succ n ih =>
    intro s c nm h
    unfold miOuter
    dsimp only
    cases h1 : alookup s.interestprefix_tab
        (byteRange c.key (c.comps.getD 0 0)
          (c.comps.getD n 0 - c.comps.getD 0 0)) with
    | none => exact ih s c nm h
    | some ipe =>
      dsimp only
      have hin := miInner_ext
        (byteRange c.key (c.comps.getD 0 0)
          (c.comps.getD n 0 - c.comps.getD 0 0))
        ipe.counters.length s c 0 nm h
      have hr := ih
        (miInner (byteRange c.key (c.comps.getD 0 0)
          (c.comps.getD n 0 - c.comps.getD 0 0))
          ipe.counters.length s c 0 nm).1
        (miInner (byteRange c.key (c.comps.getD 0 0)
          (c.comps.getD n 0 - c.comps.getD 0 0))
          ipe.counters.length s c 0 nm).2.1
        (miInner (byteRange c.key (c.comps.getD 0 0)
          (c.comps.getD n 0 - c.comps.getD 0 0))
          ipe.counters.length s c 0 nm).2.2 hin.2
      exact ⟨entryExt_trans hin.1 hr.1, hr.2⟩

theorem setCounter_keeps (s : Ccnd) (k : List Nat) (i v : Nat) :
    (setCounter s k i v).content_tab = s.content_tab ∧
    (setCounter s k i v).accession = s.accession ∧
    (setCounter s k i v).content_dups_recvd = s.content_dups_recvd ∧
    (setCounter s k i v).out = s.out ∧
    (setCounter s k i v).facetab = s.facetab := by
  unfold setCounter
  cases alookup s.interestprefix_tab k with
  | some ipe => exact ⟨rfl, rfl, rfl, rfl, rfl⟩
  | none => exact ⟨rfl, rfl, rfl, rfl, rfl⟩

theorem cancel_keeps (s : Ccnd) (k : List Nat) (fid : Nat) :
    (cancel_one_propagating_interest s k fid).content_tab =
      s.content_tab ∧
    (cancel_one_propagating_interest s k fid).accession = s.accession ∧
    (cancel_one_propagating_interest s k fid).content_dups_recvd =
      s.content_dups_recvd ∧
    (cancel_one_propagating_interest s k fid).out = s.out ∧
    (cancel_one_propagating_interest s k fid).facetab = s.facetab := by
  unfold cancel_one_propagating_interest
  cases alookup s.interestprefix_tab k with
  | none => exact ⟨rfl, rfl, rfl, rfl, rfl⟩
  | some ipe =>
    dsimp only
    cases ipe.propagating.find? (fun pk =>
      match alookup s.propagating_tab pk with
      | some pe => decide (pe.faceid = fid)
      | none => false) with
    | none => exact ⟨rfl, rfl, rfl, rfl, rfl⟩
    | some pk =>
      dsimp only
      cases alookup s.propagating_tab pk with
      | none => exact ⟨rfl, rfl, rfl, rfl, rfl⟩
      | some pe => exact ⟨rfl, rfl, rfl, rfl, rfl⟩

theorem miStep_keeps (s : Ccnd) (k : List Nat) (c : ContentEntry)
    (i nm : Nat) :
    (miStep s k c i nm).1.content_tab = s.content_tab ∧
    (miStep s k c i nm).1.accession = s.accession ∧
    (miStep s k c i nm).1.content_dups_recvd = s.content_dups_recvd ∧
    (miStep s k c i nm).1.out = s.out ∧
    (miStep s k c i nm).1.facetab = s.facetab := by
  unfold miStep
  cases alookup s.interestprefix_tab k with
  | none => exact ⟨rfl, rfl, rfl, rfl, rfl⟩
  | some ipe =>
    dsimp only
    by_cases h2 : 0 < ipe.counters.getD i 0
    · rw [if_pos h2]
      cases face_from_faceid s.facetab (ipe.interested_faceid.getD i 0) with
      | none => exact setCounter_keeps s k i 0
      | some f =>
        dsimp only
        by_cases h4 : (content_faces_set_insert c
              (ipe.interested_faceid.getD i 0)).2 ≥
            (content_faces_set_insert c
              (ipe.interested_faceid.getD i 0)).1.nface_done
        · rw [if_pos h4]
          have hk1 := cancel_keeps s k (ipe.interested_faceid.getD i 0)
          have hk2 := setCounter_keeps
            (cancel_one_propagating_interest s k
              (ipe.interested_faceid.getD i 0)) k i
            (ipe.counters.getD i 0 - CCN_UNIT_INTEREST)
          exact ⟨hk2.1.trans hk1.1, hk2.2.1.trans hk1.2.1,
            hk2.2.2.1.trans hk1.2.2.1, hk2.2.2.2.1.trans hk1.2.2.2.1,
            hk2.2.2.2.2.trans hk1.2.2.2.2⟩
        · rw [if_neg h4]
          exact setCounter_keeps s k i (ipe.counters.getD i 0)
    · rw [if_neg h2]
      exact ⟨rfl, rfl, rfl, rfl, rfl⟩

theorem miInner_keeps (k : List Nat) : ∀ (fuel : Nat) (s : Ccnd)
    (c : ContentEntry) (i nm : Nat),
    (miInner k fuel s c i nm).1.content_tab = s.content_tab ∧
    (miInner k fuel s c i nm).1.accession = s.accession ∧
    (miInner k fuel s c i nm).1.content_dups_recvd =
      s.content_dups_recvd ∧
    (miInner k fuel s c i nm).1.out = s.out ∧
    (miInner k fuel s c i nm).1.facetab = s.facetab := by
  intro fuel
  induction fuel with
  | zero => intro s c i nm; exact ⟨rfl, rfl, rfl, rfl, rfl⟩
  | succ fuel ih =>
    intro s c i nm
    have h1 := miStep_keeps s k c i nm
    have h2 := ih (miStep s k c i nm).1 (miStep s k c i nm).2.1 (i + 1)
      (miStep s k c i nm).2.2
    exact ⟨h2.1.trans h1.1, h2.2.1.trans h1.2.1,
      h2.2.2.1.trans h1.2.2.1, h2.2.2.2.1.trans h1.2.2.2.1,
      h2.2.2.2.2.trans h1.2.2.2.2⟩

theorem miOuter_keeps : ∀ (n : Nat) (s : Ccnd) (c : ContentEntry)
    (nm : Nat),
    (miOuter n s c nm).1.content_tab = s.content_tab ∧
    (miOuter n s c nm).1.accession = s.accession ∧
    (miOuter n s c nm).1.content_dups_recvd = s.content_dups_recvd ∧
    (miOuter n s c nm).1.out = s.out ∧
    (miOuter n s c nm).1.facetab = s.facetab := by
  intro n
  induction n with
  | zero => intro s c nm; exact ⟨rfl, rfl, rfl, rfl, rfl⟩
  | succ n ih =>
    intro s c nm
    unfold miOuter
    dsimp only
    cases alookup s.interestprefix_tab
        (byteRange c.key (c.comps.getD 0 0)
          (c.comps.getD n 0 - c.comps.getD 0 0)) with
    | none => exact ih s c nm
    | some ipe =>
      dsimp only
      have h1 := miInner_keeps
        (byteRange c.key (c.comps.getD 0 0)
          (c.comps.getD n 0 - c.comps.getD 0 0))
        ipe.counters.length s c 0 nm
      have h2 := ih
        (miInner (byteRange c.key (c.comps.getD 0 0)
          (c.comps.getD n 0 - c.comps.getD 0 0))
          ipe.counters.length s c 0 nm).1
        (miInner (byteRange c.key (c.comps.getD 0 0)
          (c.comps.getD n 0 - c.comps.getD 0 0))
          ipe.counters.length s c 0 nm).2.1
        (miInner (byteRange c.key (c.comps.getD 0 0)
          (c.comps.getD n 0 - c.comps.getD 0 0))
          ipe.counters.length s c 0 nm).2.2
      exact ⟨h2.1.trans h1.1, h2.2.1.trans h1.2.1,
        h2.2.2.1.trans h1.2.2.1, h2.2.2.2.1.trans h1.2.2.2.1,
        h2.2.2.2.2.trans h1.2.2.2.2⟩

theorem aupdate_len_of_some {α : Type} : ∀ (tab : List (List Nat × α))
    (key : List Nat) (v w : α), alookup tab key = some v →
    (aupdate tab key w).length = tab.length := by
  intro tab
  induction tab with
  | nil =>
    intro key v w h
    simp [alookup] at h
  | cons kv rest ih =>
    intro key v w h
    unfold aupdate
    split
    · simp
    · rename_i hne
      unfold alookup at h
      rw [List.find?_cons_of_neg _ (by simpa using hne)] at h
      simp only [List.length_cons]
      rw [ih key v w h]

theorem content_update_fields (s : Ccnd) (key : List Nat)
    (f : ContentEntry → ContentEntry) :
    (content_update s key f).accession = s.accession ∧
    (content_update s key f).content_dups_recvd = s.content_dups_recvd ∧
    (content_update s key f).out = s.out ∧
    (content_update s key f).facetab = s.facetab ∧
    (content_update s key f).sched = s.sched ∧
    (content_update s key f).randidx = s.randidx := by
  unfold content_update
  cases alookup s.content_tab key with
  | none => exact ⟨rfl, rfl, rfl, rfl, rfl, rfl⟩
  | some c => exact ⟨rfl, rfl, rfl, rfl, rfl, rfl⟩

theorem content_update_len (s : Ccnd) (key : List Nat)
    (f : ContentEntry → ContentEntry) :
    (content_update s key f).content_tab.length =
      s.content_tab.length := by
  unfold content_update
  cases hc : alookup s.content_tab key with
  | none => rfl
  | some c =>
    dsimp only
    exact aupdate_len_of_some s.content_tab key c (f c) hc

theorem content_update_alookup_self (s : Ccnd) (key : List Nat)
    (f : ContentEntry → ContentEntry) (c : ContentEntry)
    (hc : alookup s.content_tab key = some c) :
    alookup (content_update s key f).content_tab key = some (f c) := by
  unfold content_update
  rw [hc]
  dsimp only
  exact alookup_aupdate_self s.content_tab key (f c)

theorem schedule_keeps (rand : Nat → Nat) (s : Ccnd) (key : List Nat) :
    (schedule_content_delivery rand s key).accession = s.accession ∧
    (schedule_content_delivery rand s key).content_dups_recvd =
      s.content_dups_recvd ∧
    (schedule_content_delivery rand s key).out = s.out ∧
    (schedule_content_delivery rand s key).content_tab.length =
      s.content_tab.length ∧
    (∀ c, alookup s.content_tab key = some c →
      ∃ c2, alookup (schedule_content_delivery rand s
          key).content_tab key = some c2 ∧ entryExt c c2) := by
  unfold schedule_content_delivery
  cases hc : alookup s.content_tab key with
  | none =>
    refine ⟨rfl, rfl, rfl, rfl, ?_⟩
    intro c h
    exact Option.noConfusion h
  | some c0 =>
    dsimp only
    cases hf : c0.faces with
    | none =>
      refine ⟨rfl, rfl, rfl, rfl, ?_⟩
      intro c h
      injection h with h2
      refine ⟨c, ?_, entryExt_refl c⟩
      show alookup s.content_tab key = some c
      rw [hc, h2]
    | some buf =>
      dsimp only
      by_cases hcond : c0.sender = false ∧ c0.nface_done < buf.length
      · rw [if_pos hcond]
        have hcf := content_update_fields s key
          (fun c2 => { c2 with sender := true })
        refine ⟨hcf.1, hcf.2.1, hcf.2.2.1, content_update_len s key _, ?_⟩
        intro c h
        injection h with h2
        refine ⟨{ c0 with sender := true },
          content_update_alookup_self s key _ c0 hc, ?_⟩
        rw [← h2]
        exact ⟨rfl, rfl, rfl, rfl, fun b hb => ⟨[], by rw [hb]; simp⟩⟩
      · rw [if_neg hcond]
        refine ⟨rfl, rfl, rfl, rfl, ?_⟩
        intro c h
        injection h with h2
        refine ⟨c, ?_, entryExt_refl c⟩
        show alookup s.content_tab key = some c
        rw [hc, h2]

theorem match_interests_spec (rand : Nat → Nat) (s : Ccnd)
    (key : List Nat) (c : ContentEntry)
    (hc : alookup s.content_tab key = some c) (hf : c.faces ≠ none) :
    (match_interests rand s key).1.accession = s.accession ∧
    (match_interests rand s key).1.content_dups_recvd =
      s.content_dups_recvd ∧
    (match_interests rand s key).1.out = s.out ∧
    (match_interests rand s key).1.content_tab.length =
      s.content_tab.length ∧
    ∃ c2, alookup (match_interests rand s key).1.content_tab key =
      some c2 ∧ entryExt c c2 := by
  unfold match_interests
  rw [hc]
  dsimp only
  have hmk := miOuter_keeps c.ncomps s c 0
  have hme := miOuter_ext c.ncomps s c 0 hf
  have hlk : alookup (miOuter c.ncomps s c 0).1.content_tab key =
      some c := by rw [hmk.1]; exact hc
  have hupf := content_update_fields (miOuter c.ncomps s c 0).1 key
    (fun _ => (miOuter c.ncomps s c 0).2.1)
  have hupl := content_update_len (miOuter c.ncomps s c 0).1 key
    (fun _ => (miOuter c.ncomps s c 0).2.1)
  have hups := content_update_alookup_self (miOuter c.ncomps s c 0).1 key
    (fun _ => (miOuter c.ncomps s c 0).2.1) c hlk
  by_cases hnm : (miOuter c.ncomps s c 0).2.2 ≠ 0
  · rw [if_pos hnm]
    have hsk := schedule_keeps rand
      (content_update (miOuter c.ncomps s c 0).1 key
        (fun _ => (miOuter c.ncomps s c 0).2.1)) key
    obtain ⟨c2, hc2, he2⟩ := hsk.2.2.2.2 (miOuter c.ncomps s c 0).2.1 hups
    refine ⟨?_, ?_, ?_, ?_, c2, hc2, entryExt_trans hme.1 he2⟩
    · rw [hsk.1, hupf.1, hmk.2.1]
    · rw [hsk.2.1, hupf.2.1, hmk.2.2.1]
    · rw [hsk.2.2.1, hupf.2.2.1, hmk.2.2.2.1]
    · rw [hsk.2.2.2.1, hupl, hmk.1]
  · rw [if_neg hnm]
    refine ⟨?_, ?_, ?_, ?_, (miOuter c.ncomps s c 0).2.1, hups, hme.1⟩
    · rw [hupf.1, hmk.2.1]
    · rw [hupf.2.1, hmk.2.2.1]
    · rw [hupf.2.2.1, hmk.2.2.2.1]
    · rw [hupl, hmk.1]

theorem content_dup_arrival_spec (c : ContentEntry) (fid : Nat)
    (hwf : ∀ b, c.faces = some b → c.nface_done ≤ b.length) :
    ∃ (buf : List Nat) (j : Nat),
      (content_dup_arrival c fid).faces = some buf ∧
      j < (content_dup_arrival c fid).nface_done ∧
      buf.getD j 0 = fid ∧
      (content_dup_arrival c fid).key = c.key ∧
      (content_dup_arrival c fid).tail = c.tail ∧
      (content_dup_arrival c fid).accession = c.accession ∧
      (content_dup_arrival c fid).nface_done ≤ buf.length := by
  unfold content_dup_arrival
  cases hf : c.faces with
  | none =>
    have hr : content_faces_set_insert c fid =
        ({ c with faces := some [fid], nface_done := 0 }, 0) := by
      unfold content_faces_set_insert
      rw [hf]
      rfl
    rw [hr]
    dsimp only
    rw [if_pos (le_refl 0)]
    dsimp only
    exact ⟨[fid], 0, rfl, Nat.zero_lt_one, rfl, rfl, rfl, rfl,
      le_refl 1⟩
  | some buf =>
    have hwb : c.nface_done ≤ buf.length := hwf buf hf
    have hr : content_faces_set_insert c fid =
        ({ c with faces := some (indexbuf_unordered_set_insert buf fid).1 },
          (indexbuf_unordered_set_insert buf fid).2) := by
      unfold content_faces_set_insert
      rw [hf]
    rw [hr]
    dsimp only
    cases hfind : (List.range buf.length).find?
        (fun i => decide (buf.getD i 0 = fid)) with
    | some i =>
      have hpi : buf.getD i 0 = fid := by
        have := List.find?_some hfind
        simpa using this
      have hib : i < buf.length := by
        have := List.mem_of_find?_eq_some hfind
        simpa using this
      have hins : indexbuf_unordered_set_insert buf fid = (buf, i) := by
        unfold indexbuf_unordered_set_insert
        rw [hfind]
      rw [hins]
      dsimp only
      by_cases hge : i ≥ c.nface_done
      · rw [if_pos hge]
        dsimp only
        refine ⟨(buf.set i (buf.getD c.nface_done 0)).set c.nface_done fid,
          c.nface_done, rfl, Nat.lt_succ_self _, ?_, rfl, rfl, rfl, ?_⟩
        · refine getD_set_self _ _ _ ?_
          simp only [List.length_set]
          show c.nface_done < buf.length
          omega
        · simp only [List.length_set]
          show c.nface_done + 1 ≤ buf.length
          omega
      · rw [if_neg hge]
        exact ⟨buf, i, rfl, show i < c.nface_done by omega, hpi, rfl,
          rfl, rfl, hwb⟩
    | none =>
      have hins : indexbuf_unordered_set_insert buf fid =
          (buf ++ [fid], buf.length) := by
        unfold indexbuf_unordered_set_insert
        rw [hfind]
      rw [hins]
      dsimp only
      rw [if_pos (show buf.length ≥ c.nface_done from hwb)]
      dsimp only
      refine ⟨((buf ++ [fid]).set buf.length
          ((buf ++ [fid]).getD c.nface_done 0)).set c.nface_done fid,
        c.nface_done, rfl, Nat.lt_succ_self _, ?_, rfl, rfl, rfl, ?_⟩
      · refine getD_set_self _ _ _ ?_
        simp only [List.length_set, List.length_append, List.length_cons,
          List.length_nil]
        show c.nface_done < buf.length + (0 + 1)
        omega
      · simp only [List.length_set, List.length_append, List.length_cons,
          List.length_nil]
        show c.nface_done + 1 ≤ buf.length + (0 + 1)
        omega

/-- C8 (amended): a ContentObject whose key bytes and tail bytes both
match an already-stored entry is counted as a duplicate and the existing
entry is retained: no new entry or accession is created, the stored byte
fields and accession are unchanged, no bytes are written out, and the
arrival face's id ends up inside the done partition `[0, nface_done)` of
the entry's face set (not past it), so the sender loop treats that face
as already served. -/
theorem c8_duplicate_content
    (parseCo : List Nat → Option (Nat × Nat × List Nat))
    (sigOff : List Nat → Nat) (cmp : List Nat → List Nat → Ordering)
    (rand : Nat → Nat) (s : Ccnd) (face : Face) (msg : List Nat)
    (magic contentB : Nat) (comps : List Nat) (content : ContentEntry)
    (hp : parseCo msg = some (magic, contentB, comps))
    (hguard : ¬ (comps.length < 1 ∨
      comps.getD (comps.length - 1) 0 > 65535))
    (hc : alookup s.content_tab (msg.take contentB) = some content)
    (htail : msg.drop contentB = content.tail)
    (hwf : ∀ b, content.faces = some b →
      content.nface_done ≤ b.length) :
    (process_incoming_content parseCo sigOff cmp rand s face
      msg).content_dups_recvd = s.content_dups_recvd + 1 ∧
    (process_incoming_content parseCo sigOff cmp rand s face
      msg).accession = s.accession ∧
    (process_incoming_content parseCo sigOff cmp rand s face
      msg).content_tab.length = s.content_tab.length ∧
    (process_incoming_content parseCo sigOff cmp rand s face
      msg).out = s.out ∧
    ∃ (c2 : ContentEntry) (buf2 : List Nat) (j : Nat),
      alookup (process_incoming_content parseCo sigOff cmp rand s face
        msg).content_tab (msg.take contentB) = some c2 ∧
      c2.key = content.key ∧ c2.tail = content.tail ∧
      c2.accession = content.accession ∧
      c2.faces = some buf2 ∧ j < c2.nface_done ∧
      buf2.getD j 0 = face.faceid := by
  have hred : process_incoming_content parseCo sigOff cmp rand s face
      msg = (match_interests rand
        (content_update
          { s with content_dups_recvd := s.content_dups_recvd + 1 }
          (msg.take contentB)
          (fun c => content_dup_arrival c face.faceid))
        (msg.take contentB)).1 := by
    unfold process_incoming_content
    rw [hp]
    dsimp only
    rw [if_neg hguard, hc]
    dsimp only
    rw [if_neg (by simp [htail])]
  have hc1 : alookup ({ s with content_dups_recvd :=
      s.content_dups_recvd + 1 } : Ccnd).content_tab
      (msg.take contentB) = some content := hc
  have hupd := content_update_alookup_self
    { s with content_dups_recvd := s.content_dups_recvd + 1 }
    (msg.take contentB) (fun c => content_dup_arrival c face.faceid)
    content hc1
  obtain ⟨buf, j, hbuf, hj, hget, hkey, htl, hacc, hnd⟩ :=
    content_dup_arrival_spec content face.faceid hwf
  have hfnn : (content_dup_arrival content face.faceid).faces ≠ none := by
    rw [hbuf]
    simp
  have hmi := match_interests_spec rand
    (content_update
      { s with content_dups_recvd := s.content_dups_recvd + 1 }
      (msg.take contentB)
      (fun c => content_dup_arrival c face.faceid))
    (msg.take contentB) (content_dup_arrival content face.faceid)
    hupd hfnn
  have hcuf := content_update_fields
    { s with content_dups_recvd := s.content_dups_recvd + 1 }
    (msg.take contentB) (fun c => content_dup_arrival c face.faceid)
  have hcul := content_update_len
    { s with content_dups_recvd := s.content_dups_recvd + 1 }
    (msg.take contentB) (fun c => content_dup_arrival c face.faceid)
  obtain ⟨c2, hc2, hext⟩ := hmi.2.2.2.2
  obtain ⟨k2, t2, a2, n2, f2⟩ := hext
  obtain ⟨e, he⟩ := f2 buf hbuf
  rw [hred]
  refine ⟨?_, ?_, ?_, ?_, c2, buf ++ e, j, hc2, ?_, ?_, ?_, he, ?_, ?_⟩
  · rw [hmi.2.1, hcuf.2.1]
  · rw [hmi.1, hcuf.1]
  · rw [hmi.2.2.2.1, hcul]
  · rw [hmi.2.2.1, hcuf.2.2.1]
  · rw [k2, hkey]
  · rw [t2, htl]
  · rw [a2, hacc]
  · rw [n2]
    exact hj
  · rw [getD_append_left buf e j (by omega)]
    exact hget

/-- A stored content entry (key bytes `[1, 2]`, tail `[9]`) with an empty
face set, and a state holding it, for exercising the duplicate path. -/
def c8C : ContentEntry :=
  ⟨1, [1, 2], [9], 1, [0], 0, some [], 0, 0, false, none, false⟩

def c8S : Ccnd :=
  ⟨initFaceTab, [], 5, 1, [some [1, 2]], [([1, 2], c8C)], [], [], 0, 0,
   0, 0, 0, 0, [], [], false⟩

def c8F : Face := ⟨7, false, false, 0⟩

def c8parse : List Nat → Option (Nat × Nat × List Nat) :=
  fun m => if m = [1, 2, 9] then some (20080711, 2, [0]) else none

/-- The entry after the duplicate arrival of `c8C` from face 7. -/
def c8C2 : ContentEntry :=
  ⟨1, [1, 2], [9], 1, [0], 0, some [7], 1, 0, false, none, false⟩

/-- C8 divergence: the arrival face's id lands at position 0, inside the
done partition `[0, nface_done)` of the face set, not at a position past
it. -/
theorem c8_counterexample :
    alookup (process_incoming_content c8parse (fun _ => 0)
        (fun _ _ => Ordering.lt) (fun _ => 0) c8S c8F
        [1, 2, 9]).content_tab [1, 2] = some c8C2 ∧
    c8C2.faces = some [7] ∧ [7].getD 0 0 = c8F.faceid ∧
    0 < c8C2.nface_done ∧ ¬ (0 ≥ c8C2.nface_done) := by
  refine ⟨by decide, rfl, rfl, by decide, by decide⟩

theorem c8_witness :
    c8parse [1, 2, 9] = some (20080711, 2, [0]) ∧
    alookup c8S.content_tab ([1, 2, 9].take 2) = some c8C ∧
    [1, 2, 9].drop 2 = c8C.tail ∧
    ((process_incoming_content c8parse (fun _ => 0)
        (fun _ _ => Ordering.lt) (fun _ => 0) c8S c8F
        [1, 2, 9]).content_dups_recvd = c8S.content_dups_recvd + 1 ∧
      (process_incoming_content c8parse (fun _ => 0)
        (fun _ _ => Ordering.lt) (fun _ => 0) c8S c8F
        [1, 2, 9]).accession = c8S.accession ∧
      (process_incoming_content c8parse (fun _ => 0)
        (fun _ _ => Ordering.lt) (fun _ => 0) c8S c8F
        [1, 2, 9]).content_tab.length = c8S.content_tab.length ∧
      (process_incoming_content c8parse (fun _ => 0)
        (fun _ _ => Ordering.lt) (fun _ => 0) c8S c8F
        [1, 2, 9]).out = c8S.out ∧
      ∃ (c2 : ContentEntry) (buf2 : List Nat) (j : Nat),
        alookup (process_incoming_content c8parse (fun _ => 0)
          (fun _ _ => Ordering.lt) (fun _ => 0) c8S c8F
          [1, 2, 9]).content_tab ([1, 2, 9].take 2) = some c2 ∧
        c2.key = c8C.key ∧ c2.tail = c8C.tail ∧
        c2.accession = c8C.accession ∧
        c2.faces = some buf2 ∧ j < c2.nface_done ∧
        buf2.getD j 0 = c8F.faceid) :=
  ⟨rfl, by decide, by decide,
    c8_duplicate_content c8parse (fun _ => 0) (fun _ _ => Ordering.lt)
      (fun _ => 0) c8S c8F [1, 2, 9] 20080711 2 [0] c8C (by decide)
      (by decide) (by decide) (by decide) (fun b _ => Nat.zero_le _)⟩
